import Mathlib

/-!
Verification development for the chart-computation engine in `src/main.py`.

The Python source is shallowly embedded in Lean 4:
* real-valued quantities (Julian Days, ecliptic longitudes, degrees) are
  modelled by `ℚ` with exact arithmetic; Python's float `%` on reals is the
  floor-based modulo `pymod`;
* Python integer `//` and `%` are `Int.fdiv` / `Int.fmod` (floor division);
* the Swiss Ephemeris library (`swisseph`) is an external oracle: its
  position, ayanamsa and house primitives are function parameters
  (`Ephem`), while its deterministic calendar routine `swe_julday` is
  embedded from its published C source;
* CPython `datetime` calendar arithmetic (`toordinal`, `_ord2ymd`,
  timezone conversion) is embedded from the CPython source, with
  datetimes represented by their proleptic-Gregorian ordinal and
  microsecond-of-day, which is the arithmetic `datetime` itself performs;
* fallible Python code returns `Option` / `Except String`.

A second, separate model with IEEE-double rounding (`rnd53` and the
`py*` float operations) is used for `fmt_zodiac`, whose claim is
explicitly about floating-point totality.
-/

set_option maxRecDepth 8000

/-! ## Python arithmetic primitives (exact-real layer) -/

/-- Python's `x % y` on floats, in exact real arithmetic: the result has
the sign of the divisor; for `y > 0` it is `x - y*⌊x/y⌋ ∈ [0, y)`. -/
def pymod (x y : ℚ) : ℚ := x - y * ⌊x / y⌋

theorem pymod_nonneg (x : ℚ) {y : ℚ} (hy : 0 < y) : 0 ≤ pymod x y := by
  have h1 : (⌊x / y⌋ : ℚ) ≤ x / y := Int.floor_le _
  have h2 : y * (⌊x / y⌋ : ℚ) ≤ y * (x / y) := by
    exact mul_le_mul_of_nonneg_left h1 (le_of_lt hy)
  have h3 : y * (x / y) = x := by field_simp
  unfold pymod
  nlinarith

theorem pymod_lt (x : ℚ) {y : ℚ} (hy : 0 < y) : pymod x y < y := by
  have h1 : x / y < (⌊x / y⌋ : ℚ) + 1 := Int.lt_floor_add_one _
  have h2 : y * (x / y) < y * ((⌊x / y⌋ : ℚ) + 1) := by
    exact mul_lt_mul_of_pos_left h1 hy
  have h3 : y * (x / y) = x := by field_simp
  unfold pymod
  nlinarith

/-- Round half to even, to an integer (Python's `round`, and the final
rounding step of IEEE binary operations). -/
def rhe (q : ℚ) : ℤ :=
  let fl := ⌊q⌋
  let fr := q - fl
  if fr < 1 / 2 then fl
  else if 1 / 2 < fr then fl + 1
  else if 2 ∣ fl then fl else fl + 1

/-! ## CPython `datetime` calendar arithmetic

Embedded from CPython's `Lib/datetime.py` (`_is_leap`, `_days_in_month`,
`_days_before_month`, `_days_before_year`, `toordinal`, `_ord2ymd`).
Python's integer `//`/`divmod` is floor division, i.e. `Int.fdiv`. -/

def isLeap (y : ℤ) : Bool := y % 4 = 0 ∧ (y % 100 ≠ 0 ∨ y % 400 = 0)

/-- The `_DAYS_IN_MONTH` table (non-leap February). -/
def daysInMonthBase (m : ℤ) : ℤ :=
  if m = 1 then 31 else if m = 2 then 28 else if m = 3 then 31
  else if m = 4 then 30 else if m = 5 then 31 else if m = 6 then 30
  else if m = 7 then 31 else if m = 8 then 31 else if m = 9 then 30
  else if m = 10 then 31 else if m = 11 then 30 else 31

/-- CPython `_days_in_month(year, month)`. -/
def daysInMonth (y m : ℤ) : ℤ :=
  if m = 2 ∧ isLeap y then 29 else daysInMonthBase m

/-- The `_DAYS_BEFORE_MONTH` table. -/
def daysBeforeMonthBase (m : ℤ) : ℤ :=
  if m ≤ 1 then 0 else if m = 2 then 31 else if m = 3 then 59
  else if m = 4 then 90 else if m = 5 then 120 else if m = 6 then 151
  else if m = 7 then 181 else if m = 8 then 212 else if m = 9 then 243
  else if m = 10 then 273 else if m = 11 then 304 else 334

/-- CPython `_days_before_month(year, month)`. -/
def daysBeforeMonth (y m : ℤ) : ℤ :=
  daysBeforeMonthBase m + (if 2 < m ∧ isLeap y then 1 else 0)

/-- CPython `_days_before_year(year)`. -/
def daysBeforeYear (y : ℤ) : ℤ :=
  365 * (y - 1) + (y - 1).fdiv 4 - (y - 1).fdiv 100 + (y - 1).fdiv 400

/-- CPython `date.toordinal()`: proleptic Gregorian ordinal
(0001-01-01 is day 1). -/
def toordinal (y m d : ℤ) : ℤ := daysBeforeYear y + daysBeforeMonth y m + d

/-- The month/day search at the end of CPython `_ord2ymd`, applied to the
day-of-year remainder `r` (0-based) and the leap flag. -/
def ord2md (r : ℤ) (leap : Bool) : ℤ × ℤ :=
  let month := (r + 50).fdiv 32
  let preceding := daysBeforeMonthBase month + (if 2 < month ∧ leap then 1 else 0)
  let month' := if r < preceding then month - 1 else month
  let preceding' :=
    if r < preceding then
      preceding - (daysInMonthBase month' + (if month' = 2 ∧ leap then 1 else 0))
    else preceding
  (month', r - preceding' + 1)

/-- CPython `_ord2ymd(n)`: inverse of `toordinal`. -/
def ord2ymd (n : ℤ) : ℤ × ℤ × ℤ :=
  let n0 := n - 1
  let n400 := n0.fdiv 146097
  let r1 := n0.fmod 146097
  let n100 := r1.fdiv 36524
  let r2 := r1.fmod 36524
  let n4 := r2.fdiv 1461
  let r3 := r2.fmod 1461
  let n1 := r3.fdiv 365
  let r4 := r3.fmod 365
  let year := n400 * 400 + 1 + n100 * 100 + n4 * 4 + n1
  if n1 = 4 ∨ n100 = 4 then (year - 1, 12, 31)
  else
    let leap : Bool := n1 = 3 ∧ (n4 ≠ 24 ∨ n100 = 3)
    let md := ord2md r4 leap
    (year, md.1, md.2)

/-! ## The Swiss Ephemeris Julian Day routine

Embedded from the C source of `swe_julday` (file `swedate.c` of the
Swiss Ephemeris), with the Gregorian calendar flag set, which is the
default used by `swe.julday` in `src/main.py`.  The year/month/day
arguments are integers in every call site of the repository, so `u`,
`u1`, `u2` are integer-valued and the doubles' floors are exact. -/

def julday (y m d : ℤ) (h : ℚ) : ℚ :=
  let u : ℤ := if m < 3 then y - 1 else y
  let u1 : ℤ := if m + 1 < 4 then m + 13 else m + 1
  let jd1 : ℚ :=
    ((⌊((u + 4712 : ℤ) : ℚ) * 365.25⌋ : ℤ) : ℚ)
      + ((⌊(30.6 : ℚ) * ((u1 : ℤ) : ℚ) + 0.000001⌋ : ℤ) : ℚ)
      + (d : ℚ) + h / 24 - 63.5
  let u2 : ℤ := (⌊((|u| : ℤ) : ℚ) / 100⌋ : ℤ) - (⌊((|u| : ℤ) : ℚ) / 400⌋ : ℤ)
  let u2' : ℤ := if u < 0 then -u2 else u2
  let jd2 : ℚ := jd1 - (u2' : ℚ) + 2
  if u < 0 ∧ u % 100 = 0 ∧ u % 400 ≠ 0 then jd2 - 1 else jd2

/-! ## Calendar correctness lemmas -/

theorem floor_mul_qtr (v : ℤ) : ⌊(v : ℚ) * 365.25⌋ = (v * 1461) / 4 := by
  have h1 : (v : ℚ) * 365.25 = ((v * 1461 : ℤ) : ℚ) / ((4 : ℕ) : ℚ) := by
    push_cast
    ring
  rw [h1, Rat.floor_intCast_div_natCast]
  norm_num

theorem floor_div_100 (v : ℤ) : ⌊(v : ℚ) / 100⌋ = v / 100 := by
  have h1 : (v : ℚ) / 100 = ((v : ℤ) : ℚ) / ((100 : ℕ) : ℚ) := by norm_num
  rw [h1, Rat.floor_intCast_div_natCast]
  norm_num

theorem floor_div_400 (v : ℤ) : ⌊(v : ℚ) / 400⌋ = v / 400 := by
  have h1 : (v : ℚ) / 400 = ((v : ℤ) : ℚ) / ((400 : ℕ) : ℚ) := by norm_num
  rw [h1, Rat.floor_intCast_div_natCast]
  norm_num

theorem isLeap_iff (y : ℤ) :
    isLeap y = true ↔ (y % 4 = 0 ∧ (y % 100 ≠ 0 ∨ y % 400 = 0)) := by
  simp [isLeap]

/-- Finite check: the month/day search of `_ord2ymd` returns a month in
`[1, 12]` and a day such that the (leap-adjusted) days-before-month plus
the day recovers the day-of-year remainder. -/
theorem ord2md_spec : ∀ r : Fin 365, ∀ l : Bool,
    1 ≤ (ord2md (r : ℤ) l).1 ∧ (ord2md (r : ℤ) l).1 ≤ 12 ∧
      1 ≤ (ord2md (r : ℤ) l).2 ∧
      daysBeforeMonthBase (ord2md (r : ℤ) l).1
        + (if 2 < (ord2md (r : ℤ) l).1 ∧ l = true then 1 else 0)
        + (ord2md (r : ℤ) l).2 = (r : ℤ) + 1 := by
  decide

/-- Closed form of `_days_before_year` on a year decomposed into
400/100/4/1-year cycles. -/
theorem daysBeforeYear_val (a b c e : ℤ) (ha : 0 ≤ a) (hb : 0 ≤ b) (hb3 : b ≤ 3)
    (hc : 0 ≤ c) (hc24 : c ≤ 24) (he : 0 ≤ e) (he3 : e ≤ 3) :
    daysBeforeYear (a * 400 + 1 + b * 100 + c * 4 + e)
      = a * 146097 + b * 36524 + c * 1461 + e * 365 := by
  unfold daysBeforeYear
  rw [Int.fdiv_eq_ediv _ (by norm_num : (0:ℤ) ≤ 4),
    Int.fdiv_eq_ediv _ (by norm_num : (0:ℤ) ≤ 100),
    Int.fdiv_eq_ediv _ (by norm_num : (0:ℤ) ≤ 400)]
  have h4 : (a * 400 + 1 + b * 100 + c * 4 + e - 1) / 4 = a * 100 + b * 25 + c := by
    omega
  have h100 : (a * 400 + 1 + b * 100 + c * 4 + e - 1) / 100 = a * 4 + b := by
    omega
  have h400 : (a * 400 + 1 + b * 100 + c * 4 + e - 1) / 400 = a := by
    omega
  rw [h4, h100, h400]
  ring

/-- The leap-year predicate on a year decomposed into 400/100/4/1-year
cycles agrees with the flag computed inside `_ord2ymd`. -/
theorem isLeap_decomp (a b c e : ℤ) (ha : 0 ≤ a) (hb : 0 ≤ b) (hb3 : b ≤ 3)
    (hc : 0 ≤ c) (hc24 : c ≤ 24) (he : 0 ≤ e) (he3 : e ≤ 3) :
    isLeap (a * 400 + 1 + b * 100 + c * 4 + e)
      = decide (e = 3 ∧ (c ≠ 24 ∨ b = 3)) := by
  by_cases hp : (e = 3 ∧ (c ≠ 24 ∨ b = 3))
  · rw [decide_eq_true hp, isLeap_iff]
    obtain ⟨he3', hcb⟩ := hp
    subst he3'
    refine ⟨by omega, ?_⟩
    rcases hcb with hc' | hb'
    · left
      have h100 : (a * 400 + 1 + b * 100 + c * 4 + 3) % 100 = c * 4 + 4 := by omega
      omega
    · subst hb'
      by_cases hc' : c = 24
      · subst hc'
        right
        omega
      · left
        have h100 : (a * 400 + 1 + 3 * 100 + c * 4 + 3) % 100 = c * 4 + 4 := by omega
        omega
  · rw [decide_eq_false hp]
    cases hL : isLeap (a * 400 + 1 + b * 100 + c * 4 + e) with
    | false => rfl
    | true =>
      exfalso
      have hPy := (isLeap_iff _).mp hL
      apply hp
      have he' : e = 3 := by omega
      subst he'
      refine ⟨rfl, ?_⟩
      by_cases hc' : c = 24
      · subst hc'
        right
        have h100 : (a * 400 + 1 + b * 100 + 24 * 4 + 3) % 100 = 0 := by omega
        have h400 : (a * 400 + 1 + b * 100 + 24 * 4 + 3) % 400 = (b + 1) * 100 % 400 := by
          omega
        omega
      · left
        exact hc'

/-- Correctness of CPython `_ord2ymd`: for every ordinal `n ≥ 1` it
produces a year `≥ 1`, a month in `[1, 12]`, and fields whose
`toordinal` is `n` again. -/
theorem ord2ymd_spec (n : ℤ) (hn : 1 ≤ n) :
    1 ≤ (ord2ymd n).1 ∧ 1 ≤ (ord2ymd n).2.1 ∧ (ord2ymd n).2.1 ≤ 12 ∧
      toordinal (ord2ymd n).1 (ord2ymd n).2.1 (ord2ymd n).2.2 = n := by
  have h146 : (0 : ℤ) ≤ 146097 := by norm_num
  have h36 : (0 : ℤ) ≤ 36524 := by norm_num
  have h1461 : (0 : ℤ) ≤ 1461 := by norm_num
  have h365 : (0 : ℤ) ≤ 365 := by norm_num
  simp only [ord2ymd, Int.fdiv_eq_ediv _ h146, Int.fmod_eq_emod _ h146,
    Int.fdiv_eq_ediv _ h36, Int.fmod_eq_emod _ h36,
    Int.fdiv_eq_ediv _ h1461, Int.fmod_eq_emod _ h1461,
    Int.fdiv_eq_ediv _ h365, Int.fmod_eq_emod _ h365]
  set a := (n - 1) / 146097 with hadef
  set r1 := (n - 1) % 146097 with hr1def
  set b := r1 / 36524 with hbdef
  set r2 := r1 % 36524 with hr2def
  set c := r2 / 1461 with hcdef
  set r3 := r2 % 1461 with hr3def
  set e := r3 / 365 with hedef
  set r4 := r3 % 365 with hr4def
  have hrel : n - 1 = 146097 * a + r1 ∧ 0 ≤ r1 ∧ r1 < 146097
      ∧ r1 = 36524 * b + r2 ∧ 0 ≤ r2 ∧ r2 < 36524
      ∧ r2 = 1461 * c + r3 ∧ 0 ≤ r3 ∧ r3 < 1461
      ∧ r3 = 365 * e + r4 ∧ 0 ≤ r4 ∧ r4 < 365
      ∧ 0 ≤ a ∧ 0 ≤ b ∧ b ≤ 4 ∧ 0 ≤ c ∧ c ≤ 24 ∧ 0 ≤ e ∧ e ≤ 4 := by
    omega
  clear_value a r1 b r2 c r3 e r4
  clear hadef hr1def hbdef hr2def hcdef hr3def hedef hr4def
  split_ifs with hbr
  · -- December 31 branch: n1 = 4 or n100 = 4
    simp only
    refine ⟨by omega, by omega, by omega, ?_⟩
    rcases hbr with he4 | hb4
    · -- n1 = 4: last day of a leap year ending a 4-year cycle
      have hkey : b ≤ 3 ∧ c ≤ 23 ∧ r3 = 1460 ∧ r4 = 0 := by omega
      have hyr : a * 400 + 1 + b * 100 + c * 4 + e - 1
          = a * 400 + 1 + b * 100 + c * 4 + 3 := by omega
      rw [hyr]
      unfold toordinal daysBeforeMonth
      rw [daysBeforeYear_val a b c 3 (by omega) (by omega) (by omega) (by omega)
        (by omega) (by omega) (by omega)]
      rw [isLeap_decomp a b c 3 (by omega) (by omega) (by omega) (by omega)
        (by omega) (by omega) (by omega)]
      rw [decide_eq_true (show (3:ℤ) = 3 ∧ (c ≠ 24 ∨ b = 3) from
        ⟨rfl, Or.inl (by omega)⟩)]
      norm_num [daysBeforeMonthBase]
      omega
    · -- n100 = 4: December 31 ending a 400-year cycle
      have hkey : r1 = 146096 ∧ r2 = 0 ∧ c = 0 ∧ r3 = 0 ∧ e = 0 ∧ r4 = 0 ∧ b = 4 := by
        omega
      have hyr : a * 400 + 1 + b * 100 + c * 4 + e - 1
          = a * 400 + 1 + 3 * 100 + 24 * 4 + 3 := by omega
      rw [hyr]
      unfold toordinal daysBeforeMonth
      rw [daysBeforeYear_val a 3 24 3 (by omega) (by omega) (by omega) (by omega)
        (by omega) (by omega) (by omega)]
      rw [isLeap_decomp a 3 24 3 (by omega) (by omega) (by omega) (by omega)
        (by omega) (by omega) (by omega)]
      rw [decide_eq_true (show (3:ℤ) = 3 ∧ ((24:ℤ) ≠ 24 ∨ (3:ℤ) = 3) from
        ⟨rfl, Or.inr rfl⟩)]
      norm_num [daysBeforeMonthBase]
      omega
  · -- main branch
    simp only
    have hmd := ord2md_spec ⟨r4.toNat, by omega⟩ (decide (e = 3 ∧ (c ≠ 24 ∨ b = 3)))
    simp only [Fin.val_mk] at hmd
    rw [Int.toNat_of_nonneg (by omega : (0:ℤ) ≤ r4)] at hmd
    obtain ⟨hm1, hm2, hd1, heq⟩ := hmd
    refine ⟨by omega, hm1, hm2, ?_⟩
    unfold toordinal daysBeforeMonth
    rw [daysBeforeYear_val a b c e (by omega) (by omega) (by omega) (by omega)
      (by omega) (by omega) (by omega)]
    rw [isLeap_decomp a b c e (by omega) (by omega) (by omega) (by omega)
      (by omega) (by omega) (by omega)]
    split_ifs at heq ⊢ <;> omega

theorem floor_dec6 (w : ℤ) : ⌊(30.6 : ℚ) * (w : ℚ) + 0.000001⌋ = 306 * w / 10 := by
  have h1 : (30.6 : ℚ) * (w : ℚ) + 0.000001 = ((306 * w : ℤ) : ℚ) / 10 + 1 / 1000000 := by
    push_cast
    ring
  rw [h1]
  have hdm : 306 * w = 10 * (306 * w / 10) + 306 * w % 10 := (Int.ediv_add_emod _ _).symm
  have hr0 : 0 ≤ 306 * w % 10 := Int.emod_nonneg _ (by norm_num)
  have hr9 : 306 * w % 10 < 10 := Int.emod_lt_of_pos _ (by norm_num)
  rw [Int.floor_eq_iff]
  constructor
  · have : ((306 * w : ℤ) : ℚ) = 10 * ((306 * w / 10 : ℤ) : ℚ) + ((306 * w % 10 : ℤ) : ℚ) := by
      exact_mod_cast congrArg (Int.cast : ℤ → ℚ) hdm
    have hrq : (0 : ℚ) ≤ ((306 * w % 10 : ℤ) : ℚ) := by exact_mod_cast hr0
    nlinarith
  · have : ((306 * w : ℤ) : ℚ) = 10 * ((306 * w / 10 : ℤ) : ℚ) + ((306 * w % 10 : ℤ) : ℚ) := by
      exact_mod_cast congrArg (Int.cast : ℤ → ℚ) hdm
    have hrq : ((306 * w % 10 : ℤ) : ℚ) ≤ 9 := by exact_mod_cast (by omega : 306 * w % 10 ≤ 9)
    nlinarith

/-- Integer closed form of `swe_julday` for years `≥ 1`. -/
theorem julday_int (y m d : ℤ) (h : ℚ) (hy : 1 ≤ y) :
    julday y m d h
      = ((((if m < 3 then y - 1 else y) + 4712) * 1461 / 4
          + 306 * (if m + 1 < 4 then m + 13 else m + 1) / 10
          + d + 2
          - ((if m < 3 then y - 1 else y) / 100
            - (if m < 3 then y - 1 else y) / 400) : ℤ) : ℚ)
        + h / 24 - 63.5 := by
  simp only [julday]
  have hu : 0 ≤ (if m < 3 then y - 1 else y) := by split <;> omega
  rw [abs_of_nonneg hu]
  rw [if_neg (show ¬((if m < 3 then y - 1 else y) < 0
      ∧ (if m < 3 then y - 1 else y) % 100 = 0
      ∧ (if m < 3 then y - 1 else y) % 400 ≠ 0) from
    fun hcon => absurd hcon.1 (not_lt.mpr hu))]
  rw [if_neg (not_lt.mpr hu)]
  rw [floor_mul_qtr, floor_div_100, floor_div_400, floor_dec6]
  push_cast
  ring

/-- `swe_julday` agrees with CPython's proleptic-Gregorian ordinal:
`julday y m d h = toordinal y m d + 1721424.5 + h/24` for years `≥ 1`. -/
theorem julday_eq (y m d : ℤ) (h : ℚ) (hy : 1 ≤ y) (hm1 : 1 ≤ m) (hm2 : m ≤ 12) :
    julday y m d h = ((toordinal y m d : ℤ) : ℚ) + 1721424.5 + h / 24 := by
  rw [julday_int y m d h hy]
  have ha1 : (y + 4712) * 1461 / 4 = 365 * y + 1721058 + y / 4 := by omega
  have ha2 : (y - 1 + 4712) * 1461 / 4 = 365 * (y - 1) + 1721058 + (y - 1) / 4 := by
    omega
  have key : ((if m < 3 then y - 1 else y) + 4712) * 1461 / 4
      + 306 * (if m + 1 < 4 then m + 13 else m + 1) / 10
      + d + 2
      - ((if m < 3 then y - 1 else y) / 100 - (if m < 3 then y - 1 else y) / 400)
      = toordinal y m d + 1721488 := by
    unfold toordinal daysBeforeYear daysBeforeMonth daysBeforeMonthBase
    rw [Int.fdiv_eq_ediv _ (by norm_num : (0:ℤ) ≤ 4),
      Int.fdiv_eq_ediv _ (by norm_num : (0:ℤ) ≤ 100),
      Int.fdiv_eq_ediv _ (by norm_num : (0:ℤ) ≤ 400)]
    interval_cases m <;>
      (norm_num;
       first
       | omega
       | (cases hL : isLeap y <;>
           (have hP := isLeap_iff y;
            rw [hL] at hP;
            simp at hP;
            norm_num;
            omega)))
  rw [key]
  push_cast
  ring

/-! ## The Time Normalizer (`to_jd` in `src/main.py`)

`to_jd` parses the civil fields with `strptime("%Y-%m-%d %H:%M")` and
`datetime` (which accept only years 1–9999, months 1–12, days within the
month, hours 0–23, minutes 0–59), attaches either a fixed UTC offset
(`datetime.timezone` requires an offset strictly between −24h and +24h)
or a named zone from the host timezone database, converts to UTC and
calls `swe.julday` on the UTC fields.

The embedding takes the civil fields as integers (string lexing by
`strptime` is abstracted into the range guard), represents the fixed
offset as Python's `timedelta` does — an exact count of microseconds,
obtained from the float hours by round-half-even (`rhe`) — and performs
the `astimezone` conversion the way `datetime` arithmetic does: on the
proleptic-Gregorian ordinal and the microsecond of day.  A named zone is
an oracle `String → Option (ℤ → ℤ)` giving the zone's UTC offset in
microseconds as a function of the local timestamp (`none` models
`ZoneInfoNotFoundError`).  `astimezone` raises `OverflowError` outside
the `datetime` range, modelled by the ordinal range check. -/

/-- The UTC fractional hour `hour + minute/60 + second/3600` computed by
`to_jd` from the microsecond of day (microseconds are dropped, as in the
source). -/
def hfrac (rem : ℤ) : ℚ :=
  ((rem.fdiv 3600000000 : ℤ) : ℚ)
    + (((rem.fmod 3600000000).fdiv 60000000 : ℤ) : ℚ) / 60
    + ((((rem.fmod 3600000000).fmod 60000000).fdiv 1000000 : ℤ) : ℚ) / 3600

/-- UTC-conversion-and-`julday` tail of `to_jd`, given the resolved UTC
offset in microseconds. -/
def to_jd_from_offset (y mo d hh mi off : ℤ) : Option ℚ :=
  let s : ℤ := toordinal y mo d * 86400000000 + hh * 3600000000
    + mi * 60000000 - off
  let q : ℤ := s.fdiv 86400000000
  if 1 ≤ q ∧ q ≤ 3652059 then
    some (julday (ord2ymd q).1 (ord2ymd q).2.1 (ord2ymd q).2.2
      (hfrac (s.fmod 86400000000)))
  else none

/-- Model of `to_jd(local_date, local_time, tzid, use_fixed,
fixed_offset_h)` from `src/main.py`, returning the Julian Day (the
`local_dt`/`utc_dt`/display components of the Python return tuple are
presentation data derived from the same fields). -/
def to_jd (y mo d hh mi : ℤ) (tzid : String) (use_fixed : Bool)
    (fixed_offset_h : ℚ) (tzdb : String → Option (ℤ → ℤ)) : Option ℚ :=
  if 1 ≤ y ∧ y ≤ 9999 ∧ 1 ≤ mo ∧ mo ≤ 12 ∧ 1 ≤ d ∧ d ≤ daysInMonth y mo
      ∧ 0 ≤ hh ∧ hh ≤ 23 ∧ 0 ≤ mi ∧ mi ≤ 59 then
    if use_fixed then
      let off := rhe (fixed_offset_h * 3600000000)
      if -86400000000 < off ∧ off < 86400000000 then
        to_jd_from_offset y mo d hh mi off
      else none
    else
      match tzdb tzid with
      | none => none
      | some f =>
        to_jd_from_offset y mo d hh mi
          (f (toordinal y mo d * 86400000000 + hh * 3600000000 + mi * 60000000))
  else none

/-- Value of the `to_jd` tail when the UTC instant is in range. -/
theorem to_jd_from_offset_val (y mo d hh mi off : ℤ)
    (h1 : 1 ≤ (toordinal y mo d * 86400000000 + hh * 3600000000
      + mi * 60000000 - off).fdiv 86400000000)
    (h2 : (toordinal y mo d * 86400000000 + hh * 3600000000
      + mi * 60000000 - off).fdiv 86400000000 ≤ 3652059) :
    to_jd_from_offset y mo d hh mi off
      = some ((((toordinal y mo d * 86400000000 + hh * 3600000000
          + mi * 60000000 - off).fdiv 86400000000 : ℤ) : ℚ) + 1721424.5
        + hfrac ((toordinal y mo d * 86400000000 + hh * 3600000000
          + mi * 60000000 - off).fmod 86400000000) / 24) := by
  unfold to_jd_from_offset
  rw [if_pos ⟨h1, h2⟩]
  have hspec := ord2ymd_spec ((toordinal y mo d * 86400000000 + hh * 3600000000
    + mi * 60000000 - off).fdiv 86400000000) h1
  obtain ⟨hy1, hm1, hm2, htor⟩ := hspec
  rw [julday_eq _ _ _ _ hy1 hm1 hm2, htor]

/-- The `to_jd` tail fails only out of `datetime` range; on success its
value is the formula of `to_jd_from_offset_val`. -/
theorem to_jd_from_offset_some (y mo d hh mi off : ℤ) (jd : ℚ)
    (h : to_jd_from_offset y mo d hh mi off = some jd) :
    1 ≤ (toordinal y mo d * 86400000000 + hh * 3600000000
        + mi * 60000000 - off).fdiv 86400000000
      ∧ (toordinal y mo d * 86400000000 + hh * 3600000000
        + mi * 60000000 - off).fdiv 86400000000 ≤ 3652059
      ∧ jd = (((toordinal y mo d * 86400000000 + hh * 3600000000
          + mi * 60000000 - off).fdiv 86400000000 : ℤ) : ℚ) + 1721424.5
        + hfrac ((toordinal y mo d * 86400000000 + hh * 3600000000
          + mi * 60000000 - off).fmod 86400000000) / 24 := by
  by_cases hq : 1 ≤ (toordinal y mo d * 86400000000 + hh * 3600000000
      + mi * 60000000 - off).fdiv 86400000000
    ∧ (toordinal y mo d * 86400000000 + hh * 3600000000
      + mi * 60000000 - off).fdiv 86400000000 ≤ 3652059
  · refine ⟨hq.1, hq.2, ?_⟩
    rw [to_jd_from_offset_val y mo d hh mi off hq.1 hq.2] at h
    exact (Option.some.injEq _ _).mp h.symm
  · unfold to_jd_from_offset at h
    rw [if_neg hq] at h
    exact absurd h (by simp)

/-- C7: For every fixed numeric UTC offset and every pair of calendar
dates, normalizing the same local time of day with that fixed offset on
the two dates yields Moments whose difference is exactly the
calendar-day delta between the dates (the difference of their Gregorian
ordinals, equivalently of their midnight Julian Days); no
daylight-saving adjustment is applied on the fixed-offset path of
`to_jd`. -/
theorem to_jd_fixed_offset_date_delta
    (y1 m1 d1 y2 m2 d2 hh mi : ℤ) (tzid : String) (off_h : ℚ)
    (tzdb : String → Option (ℤ → ℤ)) (jd1 jd2 : ℚ)
    (h1 : to_jd y1 m1 d1 hh mi tzid true off_h tzdb = some jd1)
    (h2 : to_jd y2 m2 d2 hh mi tzid true off_h tzdb = some jd2) :
    jd1 - jd2 = ((toordinal y1 m1 d1 - toordinal y2 m2 d2 : ℤ) : ℚ)
      ∧ jd1 - jd2 = julday y1 m1 d1 0 - julday y2 m2 d2 0 := by
  simp only [to_jd] at h1 h2
  rw [if_pos trivial] at h1 h2
  set off := rhe (off_h * 3600000000) with hoffdef
  have hg1 : 1 ≤ y1 ∧ y1 ≤ 9999 ∧ 1 ≤ m1 ∧ m1 ≤ 12 ∧ 1 ≤ d1 ∧ d1 ≤ daysInMonth y1 m1
      ∧ 0 ≤ hh ∧ hh ≤ 23 ∧ 0 ≤ mi ∧ mi ≤ 59 := by
    by_contra hng
    rw [if_neg hng] at h1
    exact absurd h1 (by simp)
  rw [if_pos hg1] at h1
  have hg2 : 1 ≤ y2 ∧ y2 ≤ 9999 ∧ 1 ≤ m2 ∧ m2 ≤ 12 ∧ 1 ≤ d2 ∧ d2 ≤ daysInMonth y2 m2
      ∧ 0 ≤ hh ∧ hh ≤ 23 ∧ 0 ≤ mi ∧ mi ≤ 59 := by
    by_contra hng
    rw [if_neg hng] at h2
    exact absurd h2 (by simp)
  rw [if_pos hg2] at h2
  have hro : -86400000000 < off ∧ off < 86400000000 := by
    by_contra hng
    rw [if_neg hng] at h1
    exact absurd h1 (by simp)
  rw [if_pos hro] at h1 h2
  obtain ⟨hq1a, hq1b, hjd1⟩ := to_jd_from_offset_some _ _ _ _ _ _ _ h1
  obtain ⟨hq2a, hq2b, hjd2⟩ := to_jd_from_offset_some _ _ _ _ _ _ _ h2
  have hsdiff : toordinal y1 m1 d1 * 86400000000 + hh * 3600000000
      + mi * 60000000 - off
      = (toordinal y2 m2 d2 * 86400000000 + hh * 3600000000
        + mi * 60000000 - off)
        + (toordinal y1 m1 d1 - toordinal y2 m2 d2) * 86400000000 := by
    ring
  have hqd : (toordinal y1 m1 d1 * 86400000000 + hh * 3600000000
      + mi * 60000000 - off).fdiv 86400000000
      = (toordinal y2 m2 d2 * 86400000000 + hh * 3600000000
        + mi * 60000000 - off).fdiv 86400000000
        + (toordinal y1 m1 d1 - toordinal y2 m2 d2) := by
    rw [hsdiff, Int.fdiv_eq_ediv _ (by norm_num : (0:ℤ) ≤ 86400000000),
      Int.fdiv_eq_ediv _ (by norm_num : (0:ℤ) ≤ 86400000000)]
    exact Int.add_mul_ediv_right _ _ (by norm_num)
  have hrd : (toordinal y1 m1 d1 * 86400000000 + hh * 3600000000
      + mi * 60000000 - off).fmod 86400000000
      = (toordinal y2 m2 d2 * 86400000000 + hh * 3600000000
        + mi * 60000000 - off).fmod 86400000000 := by
    rw [hsdiff, Int.fmod_eq_emod _ (by norm_num : (0:ℤ) ≤ 86400000000),
      Int.fmod_eq_emod _ (by norm_num : (0:ℤ) ≤ 86400000000)]
    omega
  have hj1 : julday y1 m1 d1 0
      = ((toordinal y1 m1 d1 : ℤ) : ℚ) + 1721424.5 := by
    have := julday_eq y1 m1 d1 0 hg1.1 hg1.2.2.1 hg1.2.2.2.1
    simpa using this
  have hj2 : julday y2 m2 d2 0
      = ((toordinal y2 m2 d2 : ℤ) : ℚ) + 1721424.5 := by
    have := julday_eq y2 m2 d2 0 hg2.1 hg2.2.2.1 hg2.2.2.2.1
    simpa using this
  constructor
  · rw [hjd1, hjd2, hqd, hrd]
    push_cast
    ring
  · rw [hjd1, hjd2, hqd, hrd, hj1, hj2]
    push_cast
    ring

/-- Evaluation of `to_jd` at 1962-01-02 23:33, fixed offset −5 h. -/
theorem to_jd_eval_jan : to_jd 1962 1 2 23 33 "UTC" true (-5) (fun _ => none)
    = some (2437667.5 + 91/480) := by
  simp only [to_jd]
  rw [if_pos trivial]

  have hoff : rhe ((-5 : ℚ) * 3600000000) = -18000000000 := by
    unfold rhe
    rw [show ((-5 : ℚ) * 3600000000) = ((-18000000000 : ℤ) : ℚ) by norm_num]
    rw [Int.floor_intCast]
    norm_num
  rw [hoff]
  rw [if_pos (by decide : 1 ≤ (1962:ℤ) ∧ (1962:ℤ) ≤ 9999 ∧ 1 ≤ (1:ℤ) ∧ (1:ℤ) ≤ 12
    ∧ 1 ≤ (2:ℤ) ∧ (2:ℤ) ≤ daysInMonth 1962 1 ∧ 0 ≤ (23:ℤ) ∧ (23:ℤ) ≤ 23
    ∧ 0 ≤ (33:ℤ) ∧ (33:ℤ) ≤ 59)]
  rw [if_pos (by decide : -86400000000 < (-18000000000 : ℤ)
    ∧ (-18000000000 : ℤ) < 86400000000)]
  rw [to_jd_from_offset_val 1962 1 2 23 33 (-18000000000) (by decide) (by decide)]
  rw [show (toordinal 1962 1 2 * 86400000000 + 23 * 3600000000 + 33 * 60000000
    - -18000000000).fdiv 86400000000 = 716243 from by decide]
  rw [show (toordinal 1962 1 2 * 86400000000 + 23 * 3600000000 + 33 * 60000000
    - -18000000000).fmod 86400000000 = 16380000000 from by decide]
  rw [show hfrac 16380000000 = 91/20 from by
    unfold hfrac
    rw [show (16380000000:ℤ).fdiv 3600000000 = 4 from by decide]
    rw [show ((16380000000:ℤ).fmod 3600000000).fdiv 60000000 = 33 from by decide]
    rw [show (((16380000000:ℤ).fmod 3600000000).fmod 60000000).fdiv 1000000 = 0 from by
      decide]
    norm_num]
  norm_num

/-- Evaluation of `to_jd` at 1962-07-02 23:33, fixed offset −5 h
(so local 23:33 becomes 1962-07-03 04:33 UT). -/
theorem to_jd_eval_jul : to_jd 1962 7 2 23 33 "UTC" true (-5) (fun _ => none)
    = some (2437848.5 + 91/480) := by
  simp only [to_jd]
  rw [if_pos trivial]

  have hoff : rhe ((-5 : ℚ) * 3600000000) = -18000000000 := by
    unfold rhe
    rw [show ((-5 : ℚ) * 3600000000) = ((-18000000000 : ℤ) : ℚ) by norm_num]
    rw [Int.floor_intCast]
    norm_num
  rw [hoff]
  rw [if_pos (by decide : 1 ≤ (1962:ℤ) ∧ (1962:ℤ) ≤ 9999 ∧ 1 ≤ (7:ℤ) ∧ (7:ℤ) ≤ 12
    ∧ 1 ≤ (2:ℤ) ∧ (2:ℤ) ≤ daysInMonth 1962 7 ∧ 0 ≤ (23:ℤ) ∧ (23:ℤ) ≤ 23
    ∧ 0 ≤ (33:ℤ) ∧ (33:ℤ) ≤ 59)]
  rw [if_pos (by decide : -86400000000 < (-18000000000 : ℤ)
    ∧ (-18000000000 : ℤ) < 86400000000)]
  rw [to_jd_from_offset_val 1962 7 2 23 33 (-18000000000) (by decide) (by decide)]
  rw [show (toordinal 1962 7 2 * 86400000000 + 23 * 3600000000 + 33 * 60000000
    - -18000000000).fdiv 86400000000 = 716424 from by decide]
  rw [show (toordinal 1962 7 2 * 86400000000 + 23 * 3600000000 + 33 * 60000000
    - -18000000000).fmod 86400000000 = 16380000000 from by decide]
  rw [show hfrac 16380000000 = 91/20 from by
    unfold hfrac
    rw [show (16380000000:ℤ).fdiv 3600000000 = 4 from by decide]
    rw [show ((16380000000:ℤ).fmod 3600000000).fdiv 60000000 = 33 from by decide]
    rw [show (((16380000000:ℤ).fmod 3600000000).fmod 60000000).fdiv 1000000 = 0 from by
      decide]
    norm_num]
  norm_num

/-- Witness for C7 at two concrete dates six months apart
(1962-01-02 and 1962-07-02, local 23:33, fixed offset −5 h): the two
Moments differ by exactly −181 days, the ordinal delta. -/
theorem to_jd_fixed_offset_date_delta_witness :
    ((2437667.5 + 91/480 : ℚ) - (2437848.5 + 91/480)
        = ((toordinal 1962 1 2 - toordinal 1962 7 2 : ℤ) : ℚ))
      ∧ ((2437667.5 + 91/480 : ℚ) - (2437848.5 + 91/480)
        = julday 1962 1 2 0 - julday 1962 7 2 0) :=
  to_jd_fixed_offset_date_delta 1962 1 2 1962 7 2 23 33 "UTC" (-5)
    (fun _ => none) _ _ to_jd_eval_jan to_jd_eval_jul


/-! ## ISO date parsing for the ephemeris routes

`parse_iso_date` in `src/main.py` strips the string, treats a leading
"-" as the astronomical-year sign, splits on "-", and converts the
three parts with `int(...)`.  Strings are handled at the character
level: `pyStrip` is `str.strip()`, `splitOnChar` is `str.split("-")`,
and `digitsToInt` is `int(...)` restricted to plain digit strings (the
only shape the split can feed it here; other `int` spellings such as
embedded underscores are out of scope). -/

def pyStrip (cs : List Char) : List Char :=
  ((cs.dropWhile Char.isWhitespace).reverse.dropWhile Char.isWhitespace).reverse

def splitOnChar (sep : Char) : List Char → List Char → List (List Char)
  | [], cur => [cur.reverse]
  | ch :: rest, cur =>
    if ch = sep then cur.reverse :: splitOnChar sep rest []
    else splitOnChar sep rest (ch :: cur)

def digitsToInt (cs : List Char) : Option ℤ :=
  if cs = [] ∨ ¬ cs.all Char.isDigit then none
  else some (cs.foldl (fun acc ch => acc * 10 + ((ch.toNat : ℤ) - 48)) 0)

/-- Model of `parse_iso_date` from `src/main.py`: parse `YYYY-MM-DD` or
`-YYYY-MM-DD` (astronomical year numbering); `none` models the
`ValueError` raised on malformed input. -/
def parse_iso_date (s : String) : Option (ℤ × ℤ × ℤ) :=
  let t := pyStrip s.data
  let neg : Bool := t.head? = some '-'
  let t2 := if neg then t.tail else t
  match splitOnChar '-' t2 [] with
  | [ys, ms, ds] =>
    match digitsToInt ys, digitsToInt ms, digitsToInt ds with
    | some yv, some mv, some dv => some ((if neg then -1 else 1) * yv, mv, dv)
    | _, _, _ => none
  | _ => none

/-- C6 counterexample: the Time Normalizer `to_jd` does not accept a
signed (negative) year — `strptime`/`datetime` only admit years 1–9999
— so normalizing 15 March of astronomical year −44 fails instead of
producing a Moment. -/
theorem to_jd_rejects_signed_year :
    to_jd (-44) 3 15 23 33 "UTC" true (-5) (fun _ => none) = none := by
  simp only [to_jd]
  rw [if_neg (fun hc => absurd hc.1 (by norm_num))]

/-- C6 amended: signed (negative) years with astronomical numbering are
accepted by the batch ephemeris date parser `parse_iso_date` (whose
output the `/ephemeris` routes feed to `swe.julday`), while the Time
Normalizer `to_jd` itself rejects every year before 1, because
`strptime`/`datetime` admit only years 1–9999. -/
theorem parse_iso_date_signed_year_to_jd_not :
    (∀ (y mo d hh mi : ℤ) (tzid : String) (uf : Bool) (oh : ℚ)
      (tzdb : String → Option (ℤ → ℤ)), y ≤ 0 →
        to_jd y mo d hh mi tzid uf oh tzdb = none)
    ∧ parse_iso_date "-0044-03-15" = some (-44, 3, 15) := by
  constructor
  · intro y mo d hh mi tzid uf oh tzdb hy
    simp only [to_jd]
    rw [if_neg (fun hc => absurd hc.1 (by omega))]
  · decide

/-- Witness for the amended C6 statement at concrete inputs. -/
theorem parse_iso_date_signed_year_to_jd_not_witness :
    to_jd 0 1 1 0 0 "UTC" true 0 (fun _ => none) = none
      ∧ parse_iso_date "-0044-03-15" = some (-44, 3, 15) :=
  ⟨parse_iso_date_signed_year_to_jd_not.1 0 1 1 0 0 "UTC" true 0 (fun _ => none)
      (by norm_num),
    parse_iso_date_signed_year_to_jd_not.2⟩

/-! ## The ephemeris oracle and `compute_positions`

The Swiss Ephemeris is the external oracle (spec §6): `calc_ut` yields
`vals[0]`, the ecliptic longitude, or raises (`Except.error`);
`get_ayanamsa_ut` is deterministic given the sidereal mode installed by
`set_sid_mode`, so it is modelled as a function of (mode, jd);
`houses_ex` yields the cusp tuple and the first two `ascmc` entries
(the only ones the source reads).  Constants `swe.SUN .. swe.PLUTO`,
`swe.FLG_HELCTR` and `swe.SIDM_FAGAN_BRADLEY` have their swisseph
values. -/

structure Ephem where
  calc_ut : ℚ → ℕ → ℕ → Except String ℚ
  ayanamsa_ut : ℕ → ℚ → ℚ
  houses_ex : ℚ → ℚ → ℚ → Char → Except String (List ℚ × ℚ × ℚ)

def FLG_HELCTR : ℕ := 8

def SIDM_FAGAN_BRADLEY : ℕ := 0

/-- The `PLANETS` table of `src/main.py` with the swisseph body codes. -/
def PLANETS : List (String × ℕ) :=
  [("Sun", 0), ("Moon", 1), ("Mercury", 2), ("Venus", 3), ("Mars", 4),
   ("Jupiter", 5), ("Saturn", 6), ("Uranus", 7), ("Neptune", 8), ("Pluto", 9)]

/-- One output row of `compute_positions`: the numeric tropical and
sidereal longitudes behind the row dict (its `trop`/`sid` strings are
`f"{·:.6f}"` renderings of these fields and `trop_sign`/`sid_sign`
their `fmt_zodiac` renderings). -/
structure PRow where
  name : String
  trop : ℚ
  sid : ℚ

/-- The tropical loop of `compute_positions`: `swe.calc_ut` per planet,
longitude normalized `% 360`; the Python `trop` dict keyed by the
(distinct) planet names is the association list in table order. -/
def calcTrop (e : Ephem) (jd : ℚ) (flags : ℕ) :
    List (String × ℕ) → Except String (List (String × ℚ))
  | [] => .ok []
  | (n, code) :: rest =>
    match e.calc_ut jd code flags with
    | .error msg => .error msg
    | .ok v =>
      match calcTrop e jd flags rest with
      | .error msg => .error msg
      | .ok tl => .ok ((n, pymod v 360) :: tl)

/-- Model of `compute_positions(jd_ut, fb_extra_offset, center)` from
`src/main.py`. -/
def compute_positions (e : Ephem) (jd_ut fb_extra_offset : ℚ) (center : String) :
    Except String (List PRow × ℚ) :=
  let flags : ℕ := if center = "helio" then FLG_HELCTR else 0
  match calcTrop e jd_ut flags PLANETS with
  | .error msg => .error msg
  | .ok trop =>
    let ayan := e.ayanamsa_ut SIDM_FAGAN_BRADLEY jd_ut + fb_extra_offset
    .ok (trop.map (fun p => ⟨p.1, p.2, pymod (p.2 - ayan) 360⟩), ayan)

theorem calcTrop_mem (e : Ephem) (jd : ℚ) (flags : ℕ) :
    ∀ (ps : List (String × ℕ)) (res : List (String × ℚ)),
      calcTrop e jd flags ps = .ok res →
      ∀ p ∈ res, ∃ code v, (p.1, code) ∈ ps
        ∧ e.calc_ut jd code flags = .ok v ∧ p.2 = pymod v 360 := by
  intro ps
  induction ps with
  | nil =>
    intro res h p hp
    simp only [calcTrop] at h
    obtain rfl : ([] : List (String × ℚ)) = res := by
      exact (Except.ok.injEq _ _).mp h
    simp at hp
  | cons hd tl ih =>
    intro res h p hp
    obtain ⟨n, code⟩ := hd
    simp only [calcTrop] at h
    cases hc : e.calc_ut jd code flags with
    | error msg => rw [hc] at h; exact absurd h (by simp)
    | ok v =>
      rw [hc] at h
      cases ht : calcTrop e jd flags tl with
      | error msg => rw [ht] at h; exact absurd h (by simp)
      | ok tlres =>
        rw [ht] at h
        obtain rfl : (n, pymod v 360) :: tlres = res := by
          exact (Except.ok.injEq _ _).mp h
        rcases List.mem_cons.mp hp with hp' | hp'
        · subst hp'
          exact ⟨code, v, by simp, hc, by simp⟩
        · obtain ⟨code', v', hmem, hcv, hval⟩ := ih tlres ht p hp'
          exact ⟨code', v', by simp [hmem], hcv, hval⟩

/-- C1: for every body and Moment, with the ephemeris oracle modelled as
a function returning tropical longitudes and the ayanamsa, the sidereal
longitude computed by `compute_positions` is `(tropical − ayanamsa) mod
360`, where the ayanamsa is the oracle's Fagan/Bradley value plus the
caller-supplied extra offset. -/
theorem compute_positions_sidereal (e : Ephem) (jd fb : ℚ) (center : String)
    (rows : List PRow) (ayan : ℚ)
    (h : compute_positions e jd fb center = .ok (rows, ayan)) :
    ayan = e.ayanamsa_ut SIDM_FAGAN_BRADLEY jd + fb
      ∧ ∀ r ∈ rows, r.sid = pymod (r.trop - ayan) 360 := by
  simp only [compute_positions] at h
  cases hc : calcTrop e jd (if center = "helio" then FLG_HELCTR else 0) PLANETS with
  | error msg => rw [hc] at h; exact absurd h (by simp)
  | ok trop =>
    rw [hc] at h
    simp only [Except.ok.injEq, Prod.mk.injEq] at h
    obtain ⟨hrows, hayan⟩ := h
    constructor
    · exact hayan.symm
    · intro r hr
      rw [← hrows] at hr
      obtain ⟨p, _, rfl⟩ := List.mem_map.mp hr
      rw [← hayan]

/-- Exact-arithmetic range helper: with the rationals standing for
ideal reals (no rounding), the tropical and sidereal longitudes of
`compute_positions` lie in `[0, 360)`.  At IEEE-double precision this
fails at 360 — see `compute_positions_float_range` below, which settles
the range claim against the rounded model. -/
theorem compute_positions_range (e : Ephem) (jd fb : ℚ) (center : String)
    (rows : List PRow) (ayan : ℚ)
    (h : compute_positions e jd fb center = .ok (rows, ayan)) :
    ∀ r ∈ rows, 0 ≤ r.trop ∧ r.trop < 360 ∧ 0 ≤ r.sid ∧ r.sid < 360 := by
  simp only [compute_positions] at h
  cases hc : calcTrop e jd (if center = "helio" then FLG_HELCTR else 0) PLANETS with
  | error msg => rw [hc] at h; exact absurd h (by simp)
  | ok trop =>
    rw [hc] at h
    simp only [Except.ok.injEq, Prod.mk.injEq] at h
    obtain ⟨hrows, hayan⟩ := h
    intro r hr
    rw [← hrows] at hr
    obtain ⟨p, hpmem, rfl⟩ := List.mem_map.mp hr
    obtain ⟨code, v, _, _, hval⟩ :=
      calcTrop_mem e jd (if center = "helio" then FLG_HELCTR else 0) PLANETS trop hc p hpmem
    have h360 : (0 : ℚ) < 360 := by norm_num
    refine ⟨?_, ?_, pymod_nonneg _ h360, pymod_lt _ h360⟩
    · simpa [hval] using pymod_nonneg v h360
    · simpa [hval] using pymod_lt v h360

/-- A concrete oracle for witnesses: every body at longitude −1°
(exercising the negative-value normalization), ayanamsa 24.25°, and a
fixed houses answer. -/
def constEphem : Ephem where
  calc_ut := fun _ _ _ => .ok (-1)
  ayanamsa_ut := fun _ _ => 24.25
  houses_ex := fun _ _ _ _ => .ok ([100], 400, -10)

theorem constEphem_positions (jd : ℚ) :
    compute_positions constEphem jd 0 "geo"
      = .ok (PLANETS.map (fun p => ⟨p.1, 359, 334.75⟩), 24.25) := by
  norm_num [compute_positions, calcTrop, PLANETS, constEphem, pymod]

/-- Witness for C1 at a concrete oracle and Moment. -/
theorem compute_positions_sidereal_witness :
    (24.25 : ℚ) = constEphem.ayanamsa_ut SIDM_FAGAN_BRADLEY 2437667 + 0
      ∧ (334.75 : ℚ) = pymod ((359 : ℚ) - 24.25) 360 := by
  have hmain := compute_positions_sidereal constEphem 2437667 0 "geo" _ _
    (constEphem_positions 2437667)
  refine ⟨hmain.1, ?_⟩
  have := hmain.2 ⟨"Sun", 359, 334.75⟩ (by simp [PLANETS])
  exact this

/-- The exact-arithmetic range helper at a concrete oracle and
Moment. -/
theorem compute_positions_range_witness :
    (0 : ℚ) ≤ 359 ∧ (359 : ℚ) < 360 ∧ (0 : ℚ) ≤ 334.75 ∧ (334.75 : ℚ) < 360 :=
  compute_positions_range constEphem 2437667 0 "geo" _ _ (constEphem_positions 2437667)
    ⟨"Sun", 359, 334.75⟩ (by simp [PLANETS])

/-! ## `compute_houses` (spec §4.3, claim C5) -/

/-- Python `str.upper()` (ASCII case mapping suffices for the house
system tokens used here). -/
def strUpper (s : String) : String := ⟨s.data.map Char.toUpper⟩

/-- Model of `compute_houses(jd_ut, lat_deg, lon_deg, system)` from
`src/main.py`: select `'E'`/`'P'`, call the oracle's `houses_ex`, and
normalize all returned angles modulo 360.  There is no coordinate
check anywhere in the function. -/
def compute_houses (e : Ephem) (jd_ut lat_deg lon_deg : ℚ) (system : String) :
    Except String (List ℚ × ℚ × ℚ) :=
  let sys_char : Char := if strUpper system = "EQUAL" then 'E' else 'P'
  match e.houses_ex jd_ut lat_deg lon_deg sys_char with
  | .error msg => .error msg
  | .ok t => .ok (t.1.map (fun c => pymod c 360), pymod t.2.1 360, pymod t.2.2 360)

/-- C5 counterexample: `compute_houses` does not enforce the
latitude/longitude preconditions — with an oracle that answers at
latitude 91° (out of `[-90, 90]`), the computation succeeds instead of
failing with `InvalidCoordinateError` (no such error exists in the
code). -/
theorem compute_houses_no_validation :
    ¬ (∀ (e : Ephem) (jd lat lon : ℚ) (system : String),
        (lat < -90 ∨ 90 < lat ∨ lon < -180 ∨ 180 < lon) →
        ∃ msg, compute_houses e jd lat lon system = .error msg) := by
  intro hcl
  obtain ⟨msg, hmsg⟩ := hcl constEphem 0 91 0 "EQUAL"
    (Or.inr (Or.inl (by norm_num)))
  simp [compute_houses, constEphem] at hmsg

/-- C5 amended: `compute_houses` performs no coordinate validation at
all: for every latitude/longitude (in range or not) it forwards the
request to the oracle's `houses_ex` with system character `'E'` or
`'P'` and returns the oracle's outcome with every angle normalized
modulo 360; it fails exactly when the oracle fails. -/
theorem compute_houses_forwards (e : Ephem) (jd lat lon : ℚ) (system : String) :
    compute_houses e jd lat lon system
      = (e.houses_ex jd lat lon
          (if strUpper system = "EQUAL" then 'E' else 'P')).map
          (fun t => (t.1.map (fun c => pymod c 360),
            pymod t.2.1 360, pymod t.2.2 360)) := by
  simp only [compute_houses]
  cases e.houses_ex jd lat lon (if strUpper system = "EQUAL" then 'E' else 'P') with
  | error msg => rfl
  | ok t => rfl

/-! ## The `index` POST handler and GeoNames fallback (claim C3)

The POST branch of `index` in `src/main.py` reads the form, parses the
fixed UTC offset and the ayanamsa extra offset with
`float(... ) `/`except: use the default`, runs
`to_jd → compute_positions`, optionally computes houses inside a
`try/except` that sets `houses = None` on any failure, and only the
main pipeline's exceptions reach `page_error`.  `float(...)` outcomes
are modelled as `Option ℚ` (`none` = unparsable); the lat/lon fields as
"both non-empty" (`latlon_given`) plus their parse outcome
(`latlonParsed`).  `geonames_timezone` is modelled on the decoded JSON
response: a `status` member raises, otherwise
`data.get("timezoneId") or DEFAULT_TZID` falls back to the default
both when the key is missing and when it is empty. -/

def DEFAULT_TZID : String := "America/New_York"

def DEFAULT_FIXED_UTC_OFFSET : ℚ := -5

def DEFAULT_FB_EXTRA_OFFSET_DEG : ℚ := 0

def geonames_timezone (statusPresent : Bool) (statusMsg : String)
    (timezoneId : Option String) : Except String String :=
  if statusPresent then .error statusMsg
  else .ok (match timezoneId with
    | none => DEFAULT_TZID
    | some t => if t = "" then DEFAULT_TZID else t)

structure IndexPage where
  fixed_offset : ℚ
  fb_offset : ℚ
  results : Option (List PRow)
  houses : Option (List ℚ × ℚ × ℚ)
  ayan_used : Option ℚ
  page_error : Option String

/-- Model of the POST branch of `index` from `src/main.py`. -/
def indexPost (e : Ephem) (tzdb : String → Option (ℤ → ℤ))
    (y mo d hh mi : ℤ) (tzid : String) (use_fixed : Bool)
    (fixedField fbField : Option ℚ)
    (latlon_given : Bool) (latlonParsed : Option (ℚ × ℚ))
    (center house_sys : String) : IndexPage :=
  let fixed_offset := match fixedField with
    | some v => v
    | none => DEFAULT_FIXED_UTC_OFFSET
  let fb_extra := match fbField with
    | some v => v
    | none => DEFAULT_FB_EXTRA_OFFSET_DEG
  match to_jd y mo d hh mi tzid use_fixed fixed_offset tzdb with
  | none => ⟨fixed_offset, fb_extra, none, none, none, some "ValueError"⟩
  | some jd =>
    match compute_positions e jd fb_extra center with
    | .error msg => ⟨fixed_offset, fb_extra, none, none, none, some msg⟩
    | .ok (rows, ayan) =>
      let houses :=
        if latlon_given then
          match latlonParsed with
          | none => none
          | some (la, lo) =>
            match compute_houses e jd la lo house_sys with
            | .error _ => none
            | .ok hres => some hres
        else none
      ⟨fixed_offset, fb_extra, some rows, houses, some ayan, none⟩

/-- C3 counterexample: with an unparsable fixed-offset field (parse
outcome `none`) the `index` handler silently substitutes the built-in
default −5 h and reports no error at all — refuting the claim that the
engine surfaces errors instead of substituting defaults. -/
theorem index_silent_default_on_invalid_offset :
    ¬ (∀ (e : Ephem) (tzdb : String → Option (ℤ → ℤ)) (y mo d hh mi : ℤ)
        (tzid : String) (uf : Bool) (fbField : Option ℚ) (lg : Bool)
        (lp : Option (ℚ × ℚ)) (center hs : String),
        (indexPost e tzdb y mo d hh mi tzid uf none fbField lg lp
          center hs).page_error.isSome) := by
  intro hcl
  have hinst := hcl constEphem (fun _ => none) 1962 7 2 23 33 "UTC" true
    (some 0) false none "geo" "EQUAL"
  have hpage : (indexPost constEphem (fun _ => none) 1962 7 2 23 33 "UTC" true
      none (some 0) false none "geo" "EQUAL").page_error = none := by
    simp only [indexPost, DEFAULT_FIXED_UTC_OFFSET, to_jd_eval_jul,
      constEphem_positions]
  rw [hpage] at hinst
  simp at hinst

/-- C3 amended: on invalid input the `index` handler substitutes
defaults and omits results silently rather than surfacing an error:
an unparsable fixed-offset field becomes `DEFAULT_FIXED_UTC_OFFSET`
(−5 h) and an unparsable ayanamsa extra field becomes
`DEFAULT_FB_EXTRA_OFFSET_DEG` (0°), with `page_error` empty whenever
the main pipeline succeeds; a failing house computation leaves
`houses = None` with no error; and `geonames_timezone` substitutes
`DEFAULT_TZID` when the response carries no timezone id. -/
theorem index_applies_silent_defaults
    (e : Ephem) (tzdb : String → Option (ℤ → ℤ)) (y mo d hh mi : ℤ)
    (tzid : String) (uf : Bool) (lg : Bool) (lp : Option (ℚ × ℚ))
    (center hs : String) (jd : ℚ) (rows : List PRow) (ayan : ℚ)
    (hjd : to_jd y mo d hh mi tzid uf DEFAULT_FIXED_UTC_OFFSET tzdb = some jd)
    (hcp : compute_positions e jd DEFAULT_FB_EXTRA_OFFSET_DEG center
      = .ok (rows, ayan)) :
    (indexPost e tzdb y mo d hh mi tzid uf none none lg lp center hs).fixed_offset
        = DEFAULT_FIXED_UTC_OFFSET
      ∧ (indexPost e tzdb y mo d hh mi tzid uf none none lg lp center hs).fb_offset
        = DEFAULT_FB_EXTRA_OFFSET_DEG
      ∧ (indexPost e tzdb y mo d hh mi tzid uf none none lg lp center hs).page_error
        = none
      ∧ (∀ la lo emsg, lp = some (la, lo) →
          compute_houses e jd la lo hs = .error emsg →
          (indexPost e tzdb y mo d hh mi tzid uf none none lg lp center hs).houses
            = none)
      ∧ (∀ msg, geonames_timezone false msg none = .ok DEFAULT_TZID) := by
  have hbody : indexPost e tzdb y mo d hh mi tzid uf none none lg lp center hs
      = ⟨DEFAULT_FIXED_UTC_OFFSET, DEFAULT_FB_EXTRA_OFFSET_DEG, some rows,
          (if lg then
            match lp with
            | none => none
            | some (la, lo) =>
              match compute_houses e jd la lo hs with
              | .error _ => none
              | .ok hres => some hres
          else none), some ayan, none⟩ := by
    simp only [indexPost, hjd, hcp]
  refine ⟨by rw [hbody], by rw [hbody], by rw [hbody], ?_, fun msg => rfl⟩
  intro la lo emsg hlp herr
  rw [hbody]
  subst hlp
  cases lg with
  | false => rfl
  | true =>
    simp only [if_true]
    rw [herr]

/-- Witness for the amended C3 statement at a concrete request. -/
theorem index_applies_silent_defaults_witness :
    (indexPost constEphem (fun _ => none) 1962 7 2 23 33 "UTC" true none none
        false none "geo" "EQUAL").fixed_offset = DEFAULT_FIXED_UTC_OFFSET
      ∧ (indexPost constEphem (fun _ => none) 1962 7 2 23 33 "UTC" true none none
        false none "geo" "EQUAL").fb_offset = DEFAULT_FB_EXTRA_OFFSET_DEG
      ∧ (indexPost constEphem (fun _ => none) 1962 7 2 23 33 "UTC" true none none
        false none "geo" "EQUAL").page_error = none
      ∧ (∀ la lo emsg, (none : Option (ℚ × ℚ)) = some (la, lo) →
          compute_houses constEphem (2437848.5 + 91/480) la lo "EQUAL"
            = .error emsg →
          (indexPost constEphem (fun _ => none) 1962 7 2 23 33 "UTC" true none
            none false none "geo" "EQUAL").houses = none)
      ∧ (∀ msg, geonames_timezone false msg none = .ok DEFAULT_TZID) :=
  index_applies_silent_defaults constEphem (fun _ => none) 1962 7 2 23 33 "UTC"
    true false none "geo" "EQUAL" (2437848.5 + 91/480) _ _
    (by rw [show DEFAULT_FIXED_UTC_OFFSET = (-5 : ℚ) from rfl]; exact to_jd_eval_jul)
    (by rw [show DEFAULT_FB_EXTRA_OFFSET_DEG = (0 : ℚ) from rfl]
        exact constEphem_positions (2437848.5 + 91/480))

/-! ## The `/ephemeris` CSV and `/ephemeris/preview` routes

One CSV/preview row per time step.  A row's ISO timestamp column is the
`swe.revjul` rendering of its Julian Day and the center column is the
constant center string; the numeric content is the Julian Day, the
ayanamsa used, and the sidereal longitudes per planet. -/

structure ERow where
  jd : ℚ
  ayan : ℚ
  sids : List ℚ

/-- Per-row planet loop of the ephemeris routes: tropical longitude
`% 360`, then `(tropical − ayanamsa) % 360`. -/
def calcSids (e : Ephem) (jd : ℚ) (flags : ℕ) (ayan : ℚ) :
    List (String × ℕ) → Except String (List ℚ)
  | [] => .ok []
  | (_, code) :: rest =>
    match e.calc_ut jd code flags with
    | .error msg => .error msg
    | .ok v =>
      match calcSids e jd flags ayan rest with
      | .error msg => .error msg
      | .ok tl => .ok (pymod (pymod v 360 - ayan) 360 :: tl)

def isPrefixList : List Char → List Char → Bool
  | [], _ => true
  | _ :: _, [] => false
  | a :: as, b :: bs => a = b && isPrefixList as bs

/-- The step parsing of the ephemeris routes, applied to the stripped,
lowered step string: `6...` → 6 hours, `1 hour...`/`1h` → 1 hour,
anything else → 24 hours. -/
def stepHoursOf (cs : List Char) : ℕ :=
  if isPrefixList "6".data cs then 6
  else if isPrefixList "1 hour".data cs ∨ cs = "1h".data ∨ cs = "1 hour".data then 1
  else 24

theorem stepHoursOf_pos (cs : List Char) : 0 < ((stepHoursOf cs : ℕ) : ℚ) / 24 := by
  have h : 0 < stepHoursOf cs := by
    unfold stepHoursOf
    split_ifs <;> norm_num
  positivity

/-- The `while jd <= jd2 + 1e-9` loop of the `/ephemeris` CSV route: on
the first oracle failure the exception aborts the whole batch. -/
def ephLoop (e : Ephem) (flags : ℕ) (fb : ℚ) (jd2 step : ℚ) (hs : 0 < step)
    (jd : ℚ) : Except String (List ERow) :=
  if h : jd ≤ jd2 + 1 / 1000000000 then
    match calcSids e jd flags (e.ayanamsa_ut SIDM_FAGAN_BRADLEY jd + fb) PLANETS with
    | .error msg => .error msg
    | .ok sids =>
      match ephLoop e flags fb jd2 step hs (jd + step) with
      | .error msg => .error msg
      | .ok rest => .ok (⟨jd, e.ayanamsa_ut SIDM_FAGAN_BRADLEY jd + fb, sids⟩ :: rest)
  else .ok []
termination_by (⌈(jd2 + 1 / 1000000000 - jd) / step⌉ + 1).toNat
decreasing_by
  have h1 : (jd2 + 1 / 1000000000 - (jd + step)) / step
      = (jd2 + 1 / 1000000000 - jd) / step - 1 := by
    field_simp
    ring
  rw [h1, Int.ceil_sub_one]
  have h2 : (0 : ℚ) ≤ (jd2 + 1 / 1000000000 - jd) / step :=
    div_nonneg (by linarith) (le_of_lt hs)
  have h3 : (0 : ℤ) ≤ ⌈(jd2 + 1 / 1000000000 - jd) / step⌉ := Int.ceil_nonneg h2
  omega

/-- The preview loop (`/ephemeris/preview`), with the 5000-row
guardrail: `while jd <= jd2 + 1e-9 and count < row_limit`.  Returns the
rows and the final `count`. -/
def prevLoop (e : Ephem) (flags : ℕ) (fb : ℚ) (jd2 step : ℚ) (hs : 0 < step)
    (jd : ℚ) (count : ℕ) : Except String (List ERow × ℕ) :=
  if h : jd ≤ jd2 + 1 / 1000000000 ∧ count < 5000 then
    match calcSids e jd flags (e.ayanamsa_ut SIDM_FAGAN_BRADLEY jd + fb) PLANETS with
    | .error msg => .error msg
    | .ok sids =>
      match prevLoop e flags fb jd2 step hs (jd + step) (count + 1) with
      | .error msg => .error msg
      | .ok (rest, cfin) =>
        .ok (⟨jd, e.ayanamsa_ut SIDM_FAGAN_BRADLEY jd + fb, sids⟩ :: rest, cfin)
  else .ok ([], count)
termination_by 5000 - count
decreasing_by omega

/-- Analysis helper, following the spec's words for C4: the index of the
first time step whose per-planet computation fails, with its error. -/
def firstFail (e : Ephem) (flags : ℕ) (fb : ℚ) (jd2 step : ℚ) (hs : 0 < step)
    (jd : ℚ) : Option (ℕ × String) :=
  if h : jd ≤ jd2 + 1 / 1000000000 then
    match calcSids e jd flags (e.ayanamsa_ut SIDM_FAGAN_BRADLEY jd + fb) PLANETS with
    | .error msg => some (0, msg)
    | .ok _ =>
      match firstFail e flags fb jd2 step hs (jd + step) with
      | none => none
      | some (k, msg) => some (k + 1, msg)
  else none
termination_by (⌈(jd2 + 1 / 1000000000 - jd) / step⌉ + 1).toNat
decreasing_by
  have h1 : (jd2 + 1 / 1000000000 - (jd + step)) / step
      = (jd2 + 1 / 1000000000 - jd) / step - 1 := by
    field_simp
    ring
  rw [h1, Int.ceil_sub_one]
  have h2 : (0 : ℚ) ≤ (jd2 + 1 / 1000000000 - jd) / step :=
    div_nonneg (by linarith) (le_of_lt hs)
  have h3 : (0 : ℤ) ≤ ⌈(jd2 + 1 / 1000000000 - jd) / step⌉ := Int.ceil_nonneg h2
  omega

/-- The sequence of Julian Days visited by the loops. -/
def jdSteps (jd2 step : ℚ) (hs : 0 < step) (jd : ℚ) : List ℚ :=
  if h : jd ≤ jd2 + 1 / 1000000000 then jd :: jdSteps jd2 step hs (jd + step)
  else []
termination_by (⌈(jd2 + 1 / 1000000000 - jd) / step⌉ + 1).toNat
decreasing_by
  have h1 : (jd2 + 1 / 1000000000 - (jd + step)) / step
      = (jd2 + 1 / 1000000000 - jd) / step - 1 := by
    field_simp
    ring
  rw [h1, Int.ceil_sub_one]
  have h2 : (0 : ℚ) ≤ (jd2 + 1 / 1000000000 - jd) / step :=
    div_nonneg (by linarith) (le_of_lt hs)
  have h3 : (0 : ℤ) ≤ ⌈(jd2 + 1 / 1000000000 - jd) / step⌉ := Int.ceil_nonneg h2
  omega

theorem stepsMeasure_zero (jd2 step jd : ℚ) (hs : 0 < step)
    (hm : (⌈(jd2 + 1 / 1000000000 - jd) / step⌉ + 1).toNat ≤ 0) :
    ¬ jd ≤ jd2 + 1 / 1000000000 := by
  intro hle
  have h2 : (0 : ℚ) ≤ (jd2 + 1 / 1000000000 - jd) / step :=
    div_nonneg (by linarith) (le_of_lt hs)
  have h3 : (0 : ℤ) ≤ ⌈(jd2 + 1 / 1000000000 - jd) / step⌉ := Int.ceil_nonneg h2
  omega

theorem stepsMeasure_dec (jd2 step jd : ℚ) (hs : 0 < step)
    (hle : jd ≤ jd2 + 1 / 1000000000) {n : ℕ}
    (hm : (⌈(jd2 + 1 / 1000000000 - jd) / step⌉ + 1).toNat ≤ n + 1) :
    (⌈(jd2 + 1 / 1000000000 - (jd + step)) / step⌉ + 1).toNat ≤ n := by
  have h1 : (jd2 + 1 / 1000000000 - (jd + step)) / step
      = (jd2 + 1 / 1000000000 - jd) / step - 1 := by
    field_simp
    ring
  have h2 : (0 : ℚ) ≤ (jd2 + 1 / 1000000000 - jd) / step :=
    div_nonneg (by linarith) (le_of_lt hs)
  have h3 : (0 : ℤ) ≤ ⌈(jd2 + 1 / 1000000000 - jd) / step⌉ := Int.ceil_nonneg h2
  rw [h1, Int.ceil_sub_one]
  omega

theorem jdSteps_spec (jd2 step : ℚ) (hs : 0 < step) :
    ∀ (n : ℕ) (jd : ℚ), (⌈(jd2 + 1 / 1000000000 - jd) / step⌉ + 1).toNat ≤ n →
      List.Chain' (· ≤ ·) (jdSteps jd2 step hs jd)
      ∧ (jd ≤ jd2 + 1 / 1000000000 →
          ∃ tl, jdSteps jd2 step hs jd = jd :: tl) := by
  intro n
  induction n with
  | zero =>
    intro jd hm
    have hno := stepsMeasure_zero jd2 step jd hs hm
    rw [jdSteps, dif_neg hno]
    exact ⟨List.chain'_nil, fun hle => absurd hle hno⟩
  | succ n ih =>
    intro jd hm
    by_cases hle : jd ≤ jd2 + 1 / 1000000000
    · obtain ⟨ihchain, ihhead⟩ := ih (jd + step) (stepsMeasure_dec jd2 step jd hs hle hm)
      rw [jdSteps, dif_pos hle]
      constructor
      · rw [List.chain'_cons']
        refine ⟨?_, ihchain⟩
        intro b hb
        by_cases hnext : jd + step ≤ jd2 + 1 / 1000000000
        · obtain ⟨tl, htl⟩ := ihhead hnext
          rw [htl] at hb
          simp only [List.head?_cons, Option.mem_def, Option.some.injEq] at hb
          rw [← hb]
          linarith
        · rw [jdSteps, dif_neg hnext] at hb
          simp at hb
      · exact fun _ => ⟨_, rfl⟩
    · rw [jdSteps, dif_neg hle]
      exact ⟨List.chain'_nil, fun hc => absurd hc hle⟩

theorem ephLoop_ok_jds (e : Ephem) (flags : ℕ) (fb : ℚ) (jd2 step : ℚ)
    (hs : 0 < step) :
    ∀ (n : ℕ) (jd : ℚ), (⌈(jd2 + 1 / 1000000000 - jd) / step⌉ + 1).toNat ≤ n →
      ∀ rows, ephLoop e flags fb jd2 step hs jd = .ok rows →
        rows.map ERow.jd = jdSteps jd2 step hs jd := by
  intro n
  induction n with
  | zero =>
    intro jd hm rows h
    have hno := stepsMeasure_zero jd2 step jd hs hm
    rw [ephLoop, dif_neg hno] at h
    obtain rfl : ([] : List ERow) = rows := (Except.ok.injEq _ _).mp h
    rw [jdSteps, dif_neg hno]
    rfl
  | succ n ih =>
    intro jd hm rows h
    by_cases hle : jd ≤ jd2 + 1 / 1000000000
    · rw [ephLoop, dif_pos hle] at h
      cases hcs : calcSids e jd flags (e.ayanamsa_ut SIDM_FAGAN_BRADLEY jd + fb)
          PLANETS with
      | error msg =>
        simp only [hcs] at h
        exact absurd h (by simp)
      | ok sids =>
        simp only [hcs] at h
        cases hrec : ephLoop e flags fb jd2 step hs (jd + step) with
        | error msg =>
          simp only [hrec] at h
          exact absurd h (by simp)
        | ok rest =>
          simp only [hrec] at h
          obtain rfl : (⟨jd, e.ayanamsa_ut SIDM_FAGAN_BRADLEY jd + fb, sids⟩ : ERow)
              :: rest = rows := (Except.ok.injEq _ _).mp h
          rw [jdSteps, dif_pos hle]
          have := ih (jd + step) (stepsMeasure_dec jd2 step jd hs hle hm) rest hrec
          simp only [List.map_cons, this]
    · rw [ephLoop, dif_neg hle] at h
      obtain rfl : ([] : List ERow) = rows := (Except.ok.injEq _ _).mp h
      rw [jdSteps, dif_neg hle]
      rfl

theorem ephLoop_firstFail (e : Ephem) (flags : ℕ) (fb : ℚ) (jd2 step : ℚ)
    (hs : 0 < step) :
    ∀ (n : ℕ) (jd : ℚ), (⌈(jd2 + 1 / 1000000000 - jd) / step⌉ + 1).toNat ≤ n →
      (∀ k msg, firstFail e flags fb jd2 step hs jd = some (k, msg) →
        ephLoop e flags fb jd2 step hs jd = .error msg)
      ∧ (firstFail e flags fb jd2 step hs jd = none →
        ∃ rows, ephLoop e flags fb jd2 step hs jd = .ok rows) := by
  intro n
  induction n with
  | zero =>
    intro jd hm
    have hno := stepsMeasure_zero jd2 step jd hs hm
    constructor
    · intro k msg hf
      rw [firstFail, dif_neg hno] at hf
      exact absurd hf (by simp)
    · intro _
      exact ⟨[], by rw [ephLoop, dif_neg hno]⟩
  | succ n ih =>
    intro jd hm
    by_cases hle : jd ≤ jd2 + 1 / 1000000000
    · obtain ⟨ihfail, ihok⟩ := ih (jd + step) (stepsMeasure_dec jd2 step jd hs hle hm)
      constructor
      · intro k msg hf
        rw [firstFail, dif_pos hle] at hf
        rw [ephLoop, dif_pos hle]
        cases hcs : calcSids e jd flags (e.ayanamsa_ut SIDM_FAGAN_BRADLEY jd + fb)
            PLANETS with
        | error m =>
          simp only [hcs, Option.some.injEq, Prod.mk.injEq] at hf
          rw [hf.2]
        | ok sids =>
          simp only [hcs] at hf
          cases hrec : firstFail e flags fb jd2 step hs (jd + step) with
          | none =>
            simp only [hrec] at hf
            exact absurd hf (by simp)
          | some p =>
            obtain ⟨k', m'⟩ := p
            simp only [hrec, Option.some.injEq, Prod.mk.injEq] at hf
            have herr := ihfail k' m' hrec
            simp only [herr]
            rw [hf.2]
      · intro hnone
        rw [firstFail, dif_pos hle] at hnone
        rw [ephLoop, dif_pos hle]
        cases hcs : calcSids e jd flags (e.ayanamsa_ut SIDM_FAGAN_BRADLEY jd + fb)
            PLANETS with
        | error m =>
          simp only [hcs] at hnone
          exact absurd hnone (by simp)
        | ok sids =>
          simp only [hcs] at hnone
          cases hrec : firstFail e flags fb jd2 step hs (jd + step) with
          | some p =>
            obtain ⟨k', m'⟩ := p
            simp only [hrec] at hnone
            exact absurd hnone (by simp)
          | none =>
            obtain ⟨rows, hrows⟩ := ihok hrec
            simp only [hrows]
            exact ⟨_, rfl⟩
    · constructor
      · intro k msg hf
        rw [firstFail, dif_neg hle] at hf
        exact absurd hf (by simp)
      · intro _
        exact ⟨[], by rw [ephLoop, dif_neg hle]⟩

theorem prevLoop_spec (e : Ephem) (flags : ℕ) (fb : ℚ) (jd2 step : ℚ)
    (hs : 0 < step) :
    ∀ (fuel : ℕ) (jd : ℚ) (count : ℕ), 5000 - count ≤ fuel →
      ∀ rows cfin, prevLoop e flags fb jd2 step hs jd count = .ok (rows, cfin) →
        cfin = count + rows.length
        ∧ (count ≤ 5000 → cfin ≤ 5000)
        ∧ List.Chain' (· ≤ ·) (rows.map ERow.jd)
        ∧ (jd ≤ jd2 + 1 / 1000000000 → count < 5000 →
            ∃ r tl, rows = r :: tl ∧ r.jd = jd) := by
  intro fuel
  induction fuel with
  | zero =>
    intro jd count hfm rows cfin h
    rw [prevLoop,
      dif_neg (by omega : ¬(jd ≤ jd2 + 1 / 1000000000 ∧ count < 5000))] at h
    simp only [Except.ok.injEq, Prod.mk.injEq] at h
    obtain ⟨hr, hcf⟩ := h
    subst hr
    subst hcf
    refine ⟨by simp, by omega, by simp, ?_⟩
    intro _ hcount
    omega
  | succ fuel ih =>
    intro jd count hfm rows cfin h
    by_cases hcond : jd ≤ jd2 + 1 / 1000000000 ∧ count < 5000
    · rw [prevLoop, dif_pos hcond] at h
      cases hcs : calcSids e jd flags (e.ayanamsa_ut SIDM_FAGAN_BRADLEY jd + fb)
          PLANETS with
      | error msg =>
        simp only [hcs] at h
        exact absurd h (by simp)
      | ok sids =>
        simp only [hcs] at h
        cases hrec : prevLoop e flags fb jd2 step hs (jd + step) (count + 1) with
        | error msg =>
          simp only [hrec] at h
          exact absurd h (by simp)
        | ok pr =>
          obtain ⟨rest, cfin'⟩ := pr
          simp only [hrec, Except.ok.injEq, Prod.mk.injEq] at h
          obtain ⟨hr, hcf⟩ := h
          subst hcf
          obtain ⟨ih1, ih2, ih3, ih4⟩ := ih (jd + step) (count + 1)
            (by omega) rest cfin' hrec
          refine ⟨?_, ?_, ?_, ?_⟩
          · rw [← hr]
            simp only [List.length_cons]
            omega
          · intro _
            exact ih2 (by omega)
          · rw [← hr]
            simp only [List.map_cons]
            rw [List.chain'_cons']
            refine ⟨?_, ih3⟩
            intro b hb
            by_cases hnext : jd + step ≤ jd2 + 1 / 1000000000 ∧ count + 1 < 5000
            · obtain ⟨r, tl, hrtl, hrjd⟩ := ih4 hnext.1 hnext.2
              rw [hrtl] at hb
              simp only [List.map_cons, List.head?_cons, Option.mem_def,
                Option.some.injEq] at hb
              rw [← hb, hrjd]
              linarith
            · rw [prevLoop, dif_neg hnext] at hrec
              simp only [Except.ok.injEq, Prod.mk.injEq] at hrec
              obtain ⟨hrest, _⟩ := hrec
              rw [← hrest] at hb
              simp at hb
          · intro hle hcount
            exact ⟨_, rest, hr.symm, rfl⟩
    · rw [prevLoop, dif_neg hcond] at h
      simp only [Except.ok.injEq, Prod.mk.injEq] at h
      obtain ⟨hr, hcf⟩ := h
      subst hr
      subst hcf
      refine ⟨by simp, by omega, by simp, ?_⟩
      intro hle hcount
      exact absurd ⟨hle, hcount⟩ hcond

/-- Model of the `/ephemeris` CSV route of `src/main.py`.  Form fields
are `Option String` (`None`/missing selects the default); the
`float(request.form.get("fb_offset") or DEFAULT)` outcome is an
`Except` (its `ValueError` is caught by the route's handler); the
returned CSV is the list of rows; the route's catch-all turns any
exception into `"Error generating ephemeris: ..."` (a parse failure of
the dates raises a `ValueError`, abstracted here to that name). -/
def ephemeris (e : Ephem) (eph_start eph_end eph_step eph_center : Option String)
    (fb_field : Except String ℚ) : Except String (List ERow) :=
  match fb_field with
  | .error msg => .error ("Error generating ephemeris: " ++ msg)
  | .ok fb =>
    let step_cs : List Char := (pyStrip (eph_step.getD "1 day").data).map Char.toLower
    let center_cs : List Char :=
      (pyStrip (eph_center.getD "geo").data).map Char.toLower
    match parse_iso_date ⟨pyStrip (eph_start.getD "1962-07-01").data⟩,
        parse_iso_date ⟨pyStrip (eph_end.getD "1962-07-03").data⟩ with
    | some (y1, m1, d1), some (y2, m2, d2) =>
      let jd1 := julday y1 m1 d1 0
      let jd2 := julday y2 m2 d2 0
      let a := if jd2 < jd1 then jd2 else jd1
      let b := if jd2 < jd1 then jd1 else jd2
      let flags : ℕ := if center_cs = "helio".data then FLG_HELCTR else 0
      match ephLoop e flags fb b (((stepHoursOf step_cs : ℕ) : ℚ) / 24)
          (stepHoursOf_pos step_cs) a with
      | .error msg => .error ("Error generating ephemeris: " ++ msg)
      | .ok rows => .ok rows
    | _, _ => .error "Error generating ephemeris: ValueError"

/-- Model of the `/ephemeris/preview` route of `src/main.py`: the same
parsing, the guard-railed loop, and the `truncated = (count >=
row_limit)` flag handed to the renderer. -/
def ephemeris_preview (e : Ephem)
    (eph_start eph_end eph_step eph_center : Option String)
    (fb_field : Except String ℚ) : Except String (List ERow × Bool) :=
  match fb_field with
  | .error msg => .error ("Error generating preview: " ++ msg)
  | .ok fb =>
    let step_cs : List Char := (pyStrip (eph_step.getD "1 day").data).map Char.toLower
    let center_cs : List Char :=
      (pyStrip (eph_center.getD "geo").data).map Char.toLower
    match parse_iso_date ⟨pyStrip (eph_start.getD "1962-07-01").data⟩,
        parse_iso_date ⟨pyStrip (eph_end.getD "1962-07-03").data⟩ with
    | some (y1, m1, d1), some (y2, m2, d2) =>
      let jd1 := julday y1 m1 d1 0
      let jd2 := julday y2 m2 d2 0
      let a := if jd2 < jd1 then jd2 else jd1
      let b := if jd2 < jd1 then jd1 else jd2
      let flags : ℕ := if center_cs = "helio".data then FLG_HELCTR else 0
      match prevLoop e flags fb b (((stepHoursOf step_cs : ℕ) : ℚ) / 24)
          (stepHoursOf_pos step_cs) a 0 with
      | .error msg => .error ("Error generating preview: " ++ msg)
      | .ok (rows, cfin) => .ok (rows, decide (cfin ≥ 5000))
    | _, _ => .error "Error generating preview: ValueError"

/-- The first failing step of an `/ephemeris` request, and its error
(the specification-side account of "the triggering error and the step
index" for C4). -/
def ephemerisFirstFail (e : Ephem)
    (eph_start eph_end eph_step eph_center : Option String)
    (fb_field : Except String ℚ) : Option (ℕ × String) :=
  match fb_field with
  | .error _ => none
  | .ok fb =>
    let step_cs : List Char := (pyStrip (eph_step.getD "1 day").data).map Char.toLower
    let center_cs : List Char :=
      (pyStrip (eph_center.getD "geo").data).map Char.toLower
    match parse_iso_date ⟨pyStrip (eph_start.getD "1962-07-01").data⟩,
        parse_iso_date ⟨pyStrip (eph_end.getD "1962-07-03").data⟩ with
    | some (y1, m1, d1), some (y2, m2, d2) =>
      let jd1 := julday y1 m1 d1 0
      let jd2 := julday y2 m2 d2 0
      let a := if jd2 < jd1 then jd2 else jd1
      let b := if jd2 < jd1 then jd1 else jd2
      let flags : ℕ := if center_cs = "helio".data then FLG_HELCTR else 0
      firstFail e flags fb b (((stepHoursOf step_cs : ℕ) : ℚ) / 24)
        (stepHoursOf_pos step_cs) a
    | _, _ => none

/-- The full step sequence an `/ephemeris` request is supposed to
cover (independent of the oracle). -/
def ephemerisSteps (eph_start eph_end eph_step : Option String) : Option (List ℚ) :=
  let step_cs : List Char := (pyStrip (eph_step.getD "1 day").data).map Char.toLower
  match parse_iso_date ⟨pyStrip (eph_start.getD "1962-07-01").data⟩,
      parse_iso_date ⟨pyStrip (eph_end.getD "1962-07-03").data⟩ with
  | some (y1, m1, d1), some (y2, m2, d2) =>
    let jd1 := julday y1 m1 d1 0
    let jd2 := julday y2 m2 d2 0
    let a := if jd2 < jd1 then jd2 else jd1
    let b := if jd2 < jd1 then jd1 else jd2
    some (jdSteps b (((stepHoursOf step_cs : ℕ) : ℚ) / 24)
      (stepHoursOf_pos step_cs) a)
  | _, _ => none

/-- C4 amended: if any single time step of a batch ephemeris export
fails, the whole batch fails fast with the triggering error — but
without the failing step's index, which the route's error string does
not contain — and no partial output is produced; when no step fails,
the output covers every step of the range with no row skipped. -/
theorem ephemeris_fail_fast (e : Ephem) (s1 s2 s3 s4 : Option String)
    (fbf : Except String ℚ) :
    (∀ k msg, ephemerisFirstFail e s1 s2 s3 s4 fbf = some (k, msg) →
      ephemeris e s1 s2 s3 s4 fbf
        = .error ("Error generating ephemeris: " ++ msg))
    ∧ (∀ rows, ephemeris e s1 s2 s3 s4 fbf = .ok rows →
      ephemerisSteps s1 s2 s3 = some (rows.map ERow.jd)) := by
  cases fbf with
  | error m =>
    constructor
    · intro k msg hf
      simp only [ephemerisFirstFail] at hf
      exact absurd hf (by simp)
    · intro rows hr
      simp only [ephemeris] at hr
      exact absurd hr (by simp)
  | ok fb =>
    cases hp1 : parse_iso_date ⟨pyStrip (s1.getD "1962-07-01").data⟩ with
    | none =>
      constructor
      · intro k msg hf
        simp only [ephemerisFirstFail, hp1] at hf
        exact absurd hf (by simp)
      · intro rows hr
        simp only [ephemeris, hp1] at hr
        exact absurd hr (by simp)
    | some t1 =>
      obtain ⟨y1, my1, dd1⟩ := t1
      cases hp2 : parse_iso_date ⟨pyStrip (s2.getD "1962-07-03").data⟩ with
      | none =>
        constructor
        · intro k msg hf
          simp only [ephemerisFirstFail, hp1, hp2] at hf
          exact absurd hf (by simp)
        · intro rows hr
          simp only [ephemeris, hp1, hp2] at hr
          exact absurd hr (by simp)
      | some t2 =>
        obtain ⟨y2, my2, dd2⟩ := t2
        constructor
        · intro k msg hf
          simp only [ephemerisFirstFail, hp1, hp2] at hf
          simp only [ephemeris, hp1, hp2]
          have herr := (ephLoop_firstFail e _ fb _ _ _ _ _ le_rfl).1 k msg hf
          simp only [herr]
        · intro rows hr
          simp only [ephemeris, hp1, hp2] at hr
          simp only [ephemerisSteps, hp1, hp2]
          cases hlp : ephLoop e
              (if (pyStrip (s4.getD "geo").data).map Char.toLower = "helio".data
                then FLG_HELCTR else 0) fb
              (if julday y2 my2 dd2 0 < julday y1 my1 dd1 0
                then julday y1 my1 dd1 0 else julday y2 my2 dd2 0)
              (((stepHoursOf ((pyStrip (s3.getD "1 day").data).map Char.toLower)
                : ℕ) : ℚ) / 24)
              (stepHoursOf_pos ((pyStrip (s3.getD "1 day").data).map Char.toLower))
              (if julday y2 my2 dd2 0 < julday y1 my1 dd1 0
                then julday y2 my2 dd2 0 else julday y1 my1 dd1 0) with
          | error m2 =>
            simp only [hlp] at hr
            exact absurd hr (by simp)
          | ok rows' =>
            simp only [hlp] at hr
            obtain rfl : rows' = rows := (Except.ok.injEq _ _).mp hr
            have hjds := ephLoop_ok_jds e _ fb _ _ _ _ _ le_rfl rows' hlp
            rw [hjds]

/-- An oracle that fails (only) at the single Julian Day `j0`. -/
def failEphem (j0 : ℚ) : Ephem where
  calc_ut := fun jd _ _ => if jd = j0 then .error "boom" else .ok 0
  ayanamsa_ut := fun _ _ => 0
  houses_ex := fun _ _ _ _ => .ok ([], 0, 0)

theorem calcSids_failEphem_hit (j0 : ℚ) (flags : ℕ) (ay : ℚ) :
    calcSids (failEphem j0) j0 flags ay PLANETS = .error "boom" := by
  simp [calcSids, PLANETS, failEphem]

theorem calcSids_failEphem_pass (j0 jd : ℚ) (flags : ℕ) (ay : ℚ) (hne : jd ≠ j0) :
    calcSids (failEphem j0) jd flags ay PLANETS
      = .ok [pymod (pymod 0 360 - ay) 360, pymod (pymod 0 360 - ay) 360,
        pymod (pymod 0 360 - ay) 360, pymod (pymod 0 360 - ay) 360,
        pymod (pymod 0 360 - ay) 360, pymod (pymod 0 360 - ay) 360,
        pymod (pymod 0 360 - ay) 360, pymod (pymod 0 360 - ay) 360,
        pymod (pymod 0 360 - ay) 360, pymod (pymod 0 360 - ay) 360] := by
  simp [calcSids, PLANETS, failEphem, hne]

theorem firstFail_hit (j0 jd2 step : ℚ) (hs : 0 < step) (flags : ℕ) (fb : ℚ)
    (hle : j0 ≤ jd2 + 1 / 1000000000) :
    firstFail (failEphem j0) flags fb jd2 step hs j0 = some (0, "boom") := by
  rw [firstFail, dif_pos hle]
  simp only [calcSids_failEphem_hit]

theorem firstFail_pass (j0 jd2 step : ℚ) (hs : 0 < step) (jd : ℚ) (flags : ℕ)
    (fb : ℚ) (hle : jd ≤ jd2 + 1 / 1000000000) (hne : jd ≠ j0) (k : ℕ)
    (msg : String)
    (hrec : firstFail (failEphem j0) flags fb jd2 step hs (jd + step)
      = some (k, msg)) :
    firstFail (failEphem j0) flags fb jd2 step hs jd = some (k + 1, msg) := by
  rw [firstFail, dif_pos hle]
  simp only [calcSids_failEphem_pass j0 jd flags _ hne, hrec]

theorem ephLoop_failEphem_hit (j0 jd2 step : ℚ) (hs : 0 < step) (flags : ℕ)
    (fb : ℚ) (hle : j0 ≤ jd2 + 1 / 1000000000) :
    ephLoop (failEphem j0) flags fb jd2 step hs j0 = .error "boom" := by
  rw [ephLoop, dif_pos hle]
  simp only [calcSids_failEphem_hit]

theorem ephLoop_failEphem_pass (j0 jd2 step : ℚ) (hs : 0 < step) (jd : ℚ)
    (flags : ℕ) (fb : ℚ) (hle : jd ≤ jd2 + 1 / 1000000000) (hne : jd ≠ j0)
    (hrec : ephLoop (failEphem j0) flags fb jd2 step hs (jd + step)
      = .error "boom") :
    ephLoop (failEphem j0) flags fb jd2 step hs jd = .error "boom" := by
  rw [ephLoop, dif_pos hle]
  simp only [calcSids_failEphem_pass j0 jd flags _ hne, hrec]

theorem parse_0701 :
    parse_iso_date ⟨pyStrip ['1', '9', '6', '2', '-', '0', '7', '-', '0', '1']⟩
      = some (1962, 7, 1) := by
  decide

theorem parse_0703 :
    parse_iso_date ⟨pyStrip ['1', '9', '6', '2', '-', '0', '7', '-', '0', '3']⟩
      = some (1962, 7, 3) := by
  decide

theorem julday_eval_0701 : julday 1962 7 1 0 = 2437846.5 := by
  have h := julday_eq 1962 7 1 0 (by norm_num) (by norm_num) (by norm_num)
  rw [show toordinal 1962 7 1 = 716422 from by decide] at h
  rw [h]
  norm_num

theorem julday_eval_0703 : julday 1962 7 3 0 = 2437848.5 := by
  have h := julday_eq 1962 7 3 0 (by norm_num) (by norm_num) (by norm_num)
  rw [show toordinal 1962 7 3 = 716424 from by decide] at h
  rw [h]
  norm_num

theorem stepHours_1day :
    stepHoursOf (List.map Char.toLower (pyStrip ['1', ' ', 'd', 'a', 'y'])) = 24 := by
  decide

theorem center_geo_ne :
    (List.map Char.toLower (pyStrip ['g', 'e', 'o'])
      = ['h', 'e', 'l', 'i', 'o']) = False := by
  decide

theorem ephemeris_failA :
    ephemeris (failEphem 2437846.5) (some "1962-07-01") (some "1962-07-03")
      (some "1 day") (some "geo") (.ok 0)
      = .error ("Error generating ephemeris: " ++ "boom") := by
  simp only [ephemeris, Option.getD_some, parse_0701, parse_0703,
    julday_eval_0701, julday_eval_0703, stepHours_1day, center_geo_ne,
    eq_false (by norm_num : ¬((2437848.5 : ℚ) < 2437846.5)), if_false]
  rw [ephLoop_failEphem_hit 2437846.5 2437848.5 _ _ 0 0 (by norm_num)]

theorem ephemeris_failB :
    ephemeris (failEphem 2437847.5) (some "1962-07-01") (some "1962-07-03")
      (some "1 day") (some "geo") (.ok 0)
      = .error ("Error generating ephemeris: " ++ "boom") := by
  simp only [ephemeris, Option.getD_some, parse_0701, parse_0703,
    julday_eval_0701, julday_eval_0703, stepHours_1day, center_geo_ne,
    eq_false (by norm_num : ¬((2437848.5 : ℚ) < 2437846.5)), if_false]
  have hrec : ephLoop (failEphem 2437847.5) 0 0 2437848.5 (((24 : ℕ) : ℚ) / 24)
      (stepHoursOf_pos (List.map Char.toLower (pyStrip ['1', ' ', 'd', 'a', 'y'])))
      (2437846.5 + ((24 : ℕ) : ℚ) / 24) = .error "boom" := by
    rw [show (2437846.5 + ((24 : ℕ) : ℚ) / 24 : ℚ) = 2437847.5 by
      push_cast; norm_num]
    exact ephLoop_failEphem_hit 2437847.5 2437848.5 _ _ 0 0 (by norm_num)
  rw [ephLoop_failEphem_pass 2437847.5 2437848.5 _ _ 2437846.5 0 0
    (by norm_num) (by norm_num) hrec]

theorem ephFF_A :
    ephemerisFirstFail (failEphem 2437846.5) (some "1962-07-01")
      (some "1962-07-03") (some "1 day") (some "geo") (.ok 0)
      = some (0, "boom") := by
  simp only [ephemerisFirstFail, Option.getD_some, parse_0701, parse_0703,
    julday_eval_0701, julday_eval_0703, stepHours_1day, center_geo_ne,
    eq_false (by norm_num : ¬((2437848.5 : ℚ) < 2437846.5)), if_false]
  exact firstFail_hit 2437846.5 2437848.5 _ _ 0 0 (by norm_num)

theorem ephFF_B :
    ephemerisFirstFail (failEphem 2437847.5) (some "1962-07-01")
      (some "1962-07-03") (some "1 day") (some "geo") (.ok 0)
      = some (1, "boom") := by
  simp only [ephemerisFirstFail, Option.getD_some, parse_0701, parse_0703,
    julday_eval_0701, julday_eval_0703, stepHours_1day, center_geo_ne,
    eq_false (by norm_num : ¬((2437848.5 : ℚ) < 2437846.5)), if_false]
  have hrec : firstFail (failEphem 2437847.5) 0 0 2437848.5 (((24 : ℕ) : ℚ) / 24)
      (stepHoursOf_pos (List.map Char.toLower (pyStrip ['1', ' ', 'd', 'a', 'y'])))
      (2437846.5 + ((24 : ℕ) : ℚ) / 24) = some (0, "boom") := by
    rw [show (2437846.5 + ((24 : ℕ) : ℚ) / 24 : ℚ) = 2437847.5 by
      push_cast; norm_num]
    exact firstFail_hit 2437847.5 2437848.5 _ _ 0 0 (by norm_num)
  exact firstFail_pass 2437847.5 2437848.5 _ _ 2437846.5 0 0
    (by norm_num) (by norm_num) 0 "boom" hrec

/-- C4 counterexample: two batches identical except for which step
fails (step 0 vs step 1, same underlying error) produce identical route
outputs, so the batch output cannot contain the index of the failing
step; the claim's "fails fast with the triggering error and the index
of the failing step" is false in its index part. -/
theorem ephemeris_error_omits_index :
    ¬ (∀ (eX eY : Ephem) (s1 s2 s3 s4 : Option String) (fbf : Except String ℚ)
        (kX kY : ℕ) (mX mY : String),
        ephemerisFirstFail eX s1 s2 s3 s4 fbf = some (kX, mX) →
        ephemerisFirstFail eY s1 s2 s3 s4 fbf = some (kY, mY) →
        ephemeris eX s1 s2 s3 s4 fbf = ephemeris eY s1 s2 s3 s4 fbf →
        kX = kY) := by
  intro hcl
  have h01 : (0 : ℕ) = 1 := hcl (failEphem 2437846.5) (failEphem 2437847.5)
    (some "1962-07-01") (some "1962-07-03") (some "1 day") (some "geo") (.ok 0)
    0 1 "boom" "boom" ephFF_A ephFF_B
    (by rw [ephemeris_failA, ephemeris_failB])
  exact absurd h01 (by norm_num)

/-- Witness for the amended C4 statement: a concrete failing batch
aborts with the triggering error and produces no output rows. -/
theorem ephemeris_fail_fast_witness :
    ephemeris (failEphem 2437846.5) (some "1962-07-01") (some "1962-07-03")
      (some "1 day") (some "geo") (.ok 0)
      = .error ("Error generating ephemeris: " ++ "boom") :=
  (ephemeris_fail_fast (failEphem 2437846.5) (some "1962-07-01")
    (some "1962-07-03") (some "1 day") (some "geo") (.ok 0)).1 0 "boom" ephFF_A

/-- A total oracle for witnesses of the loop claims: every call
succeeds, with longitude 0 and ayanamsa 0. -/
def okEphem : Ephem where
  calc_ut := fun _ _ _ => .ok 0
  ayanamsa_ut := fun _ _ => 0
  houses_ex := fun _ _ _ _ => .ok ([], 0, 0)

theorem calcSids_okEphem (jd : ℚ) (flags : ℕ) :
    calcSids okEphem jd flags 0 PLANETS = .ok (List.replicate 10 0) := by
  norm_num [calcSids, PLANETS, okEphem, pymod, List.replicate]

theorem ayan_okEphem (jd : ℚ) :
    okEphem.ayanamsa_ut SIDM_FAGAN_BRADLEY jd + (0 : ℚ) = 0 := by
  norm_num [okEphem]

theorem ephLoop_okEphem_nil (flags : ℕ) (jd2 step jd : ℚ) (hs : 0 < step)
    (hgt : ¬ jd ≤ jd2 + 1 / 1000000000) :
    ephLoop okEphem flags 0 jd2 step hs jd = .ok [] := by
  rw [ephLoop, dif_neg hgt]

theorem ephLoop_okEphem_cons (flags : ℕ) (jd2 step jd : ℚ) (hs : 0 < step)
    (hle : jd ≤ jd2 + 1 / 1000000000) (rest : List ERow)
    (hrec : ephLoop okEphem flags 0 jd2 step hs (jd + step) = .ok rest) :
    ephLoop okEphem flags 0 jd2 step hs jd
      = .ok (⟨jd, 0, List.replicate 10 0⟩ :: rest) := by
  rw [ephLoop, dif_pos hle, ayan_okEphem, calcSids_okEphem, hrec]

theorem prevLoop_okEphem_nil (flags : ℕ) (jd2 step jd : ℚ) (hs : 0 < step)
    (count : ℕ) (hno : ¬ (jd ≤ jd2 + 1 / 1000000000 ∧ count < 5000)) :
    prevLoop okEphem flags 0 jd2 step hs jd count = .ok ([], count) := by
  rw [prevLoop, dif_neg hno]

theorem prevLoop_okEphem_cons (flags : ℕ) (jd2 step jd : ℚ) (hs : 0 < step)
    (count : ℕ) (hc : jd ≤ jd2 + 1 / 1000000000 ∧ count < 5000)
    (rest : List ERow) (cfin : ℕ)
    (hrec : prevLoop okEphem flags 0 jd2 step hs (jd + step) (count + 1)
      = .ok (rest, cfin)) :
    prevLoop okEphem flags 0 jd2 step hs jd count
      = .ok (⟨jd, 0, List.replicate 10 0⟩ :: rest, cfin) := by
  rw [prevLoop, dif_pos hc, ayan_okEphem, calcSids_okEphem, hrec]

theorem ephemeris_okEphem_eval :
    ephemeris okEphem (some "1962-07-03") (some "1962-07-01") (some "1 day")
      (some "geo") (.ok 0)
      = .ok [⟨2437846.5, 0, List.replicate 10 0⟩,
          ⟨2437847.5, 0, List.replicate 10 0⟩,
          ⟨2437848.5, 0, List.replicate 10 0⟩] := by
  simp only [ephemeris, Option.getD_some, parse_0701, parse_0703,
    julday_eval_0701, julday_eval_0703, stepHours_1day, center_geo_ne,
    eq_true (by norm_num : (2437846.5 : ℚ) < 2437848.5), if_true, if_false]
  have e3 : ephLoop okEphem 0 0 2437848.5 (((24 : ℕ) : ℚ) / 24)
      (stepHoursOf_pos (List.map Char.toLower (pyStrip ['1', ' ', 'd', 'a', 'y'])))
      (2437848.5 + ((24 : ℕ) : ℚ) / 24) = .ok [] := by
    rw [show (2437848.5 + ((24 : ℕ) : ℚ) / 24 : ℚ) = 2437849.5 by
      push_cast; norm_num]
    exact ephLoop_okEphem_nil 0 2437848.5 _ 2437849.5 _ (by norm_num)
  have e2 : ephLoop okEphem 0 0 2437848.5 (((24 : ℕ) : ℚ) / 24)
      (stepHoursOf_pos (List.map Char.toLower (pyStrip ['1', ' ', 'd', 'a', 'y'])))
      2437848.5 = .ok [⟨2437848.5, 0, List.replicate 10 0⟩] :=
    ephLoop_okEphem_cons 0 2437848.5 _ 2437848.5 _ (by norm_num) [] e3
  have e2b : ephLoop okEphem 0 0 2437848.5 (((24 : ℕ) : ℚ) / 24)
      (stepHoursOf_pos (List.map Char.toLower (pyStrip ['1', ' ', 'd', 'a', 'y'])))
      (2437847.5 + ((24 : ℕ) : ℚ) / 24)
      = .ok [⟨2437848.5, 0, List.replicate 10 0⟩] := by
    rw [show (2437847.5 + ((24 : ℕ) : ℚ) / 24 : ℚ) = 2437848.5 by
      push_cast; norm_num]
    exact e2
  have e1 : ephLoop okEphem 0 0 2437848.5 (((24 : ℕ) : ℚ) / 24)
      (stepHoursOf_pos (List.map Char.toLower (pyStrip ['1', ' ', 'd', 'a', 'y'])))
      2437847.5
      = .ok [⟨2437847.5, 0, List.replicate 10 0⟩,
          ⟨2437848.5, 0, List.replicate 10 0⟩] :=
    ephLoop_okEphem_cons 0 2437848.5 _ 2437847.5 _ (by norm_num) _ e2b
  have e1b : ephLoop okEphem 0 0 2437848.5 (((24 : ℕ) : ℚ) / 24)
      (stepHoursOf_pos (List.map Char.toLower (pyStrip ['1', ' ', 'd', 'a', 'y'])))
      (2437846.5 + ((24 : ℕ) : ℚ) / 24)
      = .ok [⟨2437847.5, 0, List.replicate 10 0⟩,
          ⟨2437848.5, 0, List.replicate 10 0⟩] := by
    rw [show (2437846.5 + ((24 : ℕ) : ℚ) / 24 : ℚ) = 2437847.5 by
      push_cast; norm_num]
    exact e1
  have e0 : ephLoop okEphem 0 0 2437848.5 (((24 : ℕ) : ℚ) / 24)
      (stepHoursOf_pos (List.map Char.toLower (pyStrip ['1', ' ', 'd', 'a', 'y'])))
      2437846.5
      = .ok [⟨2437846.5, 0, List.replicate 10 0⟩,
          ⟨2437847.5, 0, List.replicate 10 0⟩,
          ⟨2437848.5, 0, List.replicate 10 0⟩] :=
    ephLoop_okEphem_cons 0 2437848.5 _ 2437846.5 _ (by norm_num) _ e1b
  rw [e0]

theorem preview_okEphem_eval :
    ephemeris_preview okEphem (some "1962-07-03") (some "1962-07-01")
      (some "1 day") (some "geo") (.ok 0)
      = .ok ([⟨2437846.5, 0, List.replicate 10 0⟩,
          ⟨2437847.5, 0, List.replicate 10 0⟩,
          ⟨2437848.5, 0, List.replicate 10 0⟩], false) := by
  simp only [ephemeris_preview, Option.getD_some, parse_0701, parse_0703,
    julday_eval_0701, julday_eval_0703, stepHours_1day, center_geo_ne,
    eq_true (by norm_num : (2437846.5 : ℚ) < 2437848.5), if_true, if_false]
  have p3 : prevLoop okEphem 0 0 2437848.5 (((24 : ℕ) : ℚ) / 24)
      (stepHoursOf_pos (List.map Char.toLower (pyStrip ['1', ' ', 'd', 'a', 'y'])))
      (2437848.5 + ((24 : ℕ) : ℚ) / 24) 3 = .ok ([], 3) := by
    rw [show (2437848.5 + ((24 : ℕ) : ℚ) / 24 : ℚ) = 2437849.5 by
      push_cast; norm_num]
    exact prevLoop_okEphem_nil 0 2437848.5 _ 2437849.5 _ 3
      (by rw [not_and]; intro hc; exact absurd hc (by norm_num))
  have p2 : prevLoop okEphem 0 0 2437848.5 (((24 : ℕ) : ℚ) / 24)
      (stepHoursOf_pos (List.map Char.toLower (pyStrip ['1', ' ', 'd', 'a', 'y'])))
      2437848.5 2 = .ok ([⟨2437848.5, 0, List.replicate 10 0⟩], 3) :=
    prevLoop_okEphem_cons 0 2437848.5 _ 2437848.5 _ 2
      ⟨by norm_num, by norm_num⟩ [] 3 p3
  have p2b : prevLoop okEphem 0 0 2437848.5 (((24 : ℕ) : ℚ) / 24)
      (stepHoursOf_pos (List.map Char.toLower (pyStrip ['1', ' ', 'd', 'a', 'y'])))
      (2437847.5 + ((24 : ℕ) : ℚ) / 24) 2
      = .ok ([⟨2437848.5, 0, List.replicate 10 0⟩], 3) := by
    rw [show (2437847.5 + ((24 : ℕ) : ℚ) / 24 : ℚ) = 2437848.5 by
      push_cast; norm_num]
    exact p2
  have p1 : prevLoop okEphem 0 0 2437848.5 (((24 : ℕ) : ℚ) / 24)
      (stepHoursOf_pos (List.map Char.toLower (pyStrip ['1', ' ', 'd', 'a', 'y'])))
      2437847.5 1
      = .ok ([⟨2437847.5, 0, List.replicate 10 0⟩,
          ⟨2437848.5, 0, List.replicate 10 0⟩], 3) :=
    prevLoop_okEphem_cons 0 2437848.5 _ 2437847.5 _ 1
      ⟨by norm_num, by norm_num⟩ _ 3 p2b
  have p1b : prevLoop okEphem 0 0 2437848.5 (((24 : ℕ) : ℚ) / 24)
      (stepHoursOf_pos (List.map Char.toLower (pyStrip ['1', ' ', 'd', 'a', 'y'])))
      (2437846.5 + ((24 : ℕ) : ℚ) / 24) 1
      = .ok ([⟨2437847.5, 0, List.replicate 10 0⟩,
          ⟨2437848.5, 0, List.replicate 10 0⟩], 3) := by
    rw [show (2437846.5 + ((24 : ℕ) : ℚ) / 24 : ℚ) = 2437847.5 by
      push_cast; norm_num]
    exact p1
  have p0 : prevLoop okEphem 0 0 2437848.5 (((24 : ℕ) : ℚ) / 24)
      (stepHoursOf_pos (List.map Char.toLower (pyStrip ['1', ' ', 'd', 'a', 'y'])))
      2437846.5 0
      = .ok ([⟨2437846.5, 0, List.replicate 10 0⟩,
          ⟨2437847.5, 0, List.replicate 10 0⟩,
          ⟨2437848.5, 0, List.replicate 10 0⟩], 3) :=
    prevLoop_okEphem_cons 0 2437848.5 _ 2437846.5 _ 0
      ⟨by norm_num, by norm_num⟩ _ 3 p1b
  rw [p0]
  rfl

/-- Helper: a successful CSV loop run starting inside the range yields
rows in non-decreasing Julian-Day order whose first row is the start. -/
theorem okrun_head (e : Ephem) (flags : ℕ) (fb b st : ℚ) (hs : 0 < st) (a : ℚ)
    (rows : List ERow) (hok : ephLoop e flags fb b st hs a = .ok rows)
    (hle : a ≤ b + 1 / 1000000000) :
    List.Chain' (fun x y => x ≤ y) (rows.map ERow.jd)
    ∧ ∃ r tl, rows = r :: tl ∧ r.jd = a := by
  have hmap := ephLoop_ok_jds e flags fb b st hs _ a le_rfl rows hok
  obtain ⟨hch, hhd⟩ := jdSteps_spec b st hs _ a le_rfl
  obtain ⟨tl, htl⟩ := hhd hle
  constructor
  · rw [hmap]
    exact hch
  · rw [htl] at hmap
    cases rows with
    | nil =>
      rw [List.map_nil] at hmap
      exact absurd hmap (by simp)
    | cons r tlr =>
      rw [List.map_cons] at hmap
      simp only [List.cons.injEq] at hmap
      exact ⟨r, tlr, rfl, hmap.1⟩

/-- C9: when the parsed end date precedes the start date, both ephemeris
routes swap the endpoints instead of raising: every successful CSV or
preview response lists its rows in non-decreasing Julian-Day order,
starting at the (earlier) parsed end date. -/
theorem ephemeris_swapped_order (e : Ephem) (s1 s2 s3 s4 : Option String)
    (fbf : Except String ℚ) (y1 m1 d1 y2 m2 d2 : ℤ)
    (hp1 : parse_iso_date ⟨pyStrip (s1.getD "1962-07-01").data⟩ = some (y1, m1, d1))
    (hp2 : parse_iso_date ⟨pyStrip (s2.getD "1962-07-03").data⟩ = some (y2, m2, d2))
    (hlt : julday y2 m2 d2 0 < julday y1 m1 d1 0) :
    (∀ rows, ephemeris e s1 s2 s3 s4 fbf = .ok rows →
        List.Chain' (fun x y => x ≤ y) (rows.map ERow.jd)
        ∧ ∃ r tl, rows = r :: tl ∧ r.jd = julday y2 m2 d2 0)
    ∧ (∀ rows tr, ephemeris_preview e s1 s2 s3 s4 fbf = .ok (rows, tr) →
        List.Chain' (fun x y => x ≤ y) (rows.map ERow.jd)
        ∧ ∃ r tl, rows = r :: tl ∧ r.jd = julday y2 m2 d2 0) := by
  cases fbf with
  | error m =>
    constructor
    · intro rows hr
      simp only [ephemeris] at hr
      exact absurd hr (by simp)
    · intro rows tr hr
      simp only [ephemeris_preview] at hr
      exact absurd hr (by simp)
  | ok fb =>
    constructor
    · intro rows hr
      simp only [ephemeris, hp1, hp2, if_pos hlt] at hr
      cases hlp : ephLoop e
          (if (pyStrip (s4.getD "geo").data).map Char.toLower = "helio".data
            then FLG_HELCTR else 0) fb
          (julday y1 m1 d1 0)
          (((stepHoursOf ((pyStrip (s3.getD "1 day").data).map Char.toLower)
            : ℕ) : ℚ) / 24)
          (stepHoursOf_pos ((pyStrip (s3.getD "1 day").data).map Char.toLower))
          (julday y2 m2 d2 0) with
      | error msg =>
        simp only [hlp] at hr
        exact absurd hr (by simp)
      | ok rows2 =>
        simp only [hlp] at hr
        obtain rfl : rows2 = rows := (Except.ok.injEq _ _).mp hr
        exact okrun_head e _ fb _ _ _ _ rows2 hlp (by linarith)
    · intro rows tr hr
      simp only [ephemeris_preview, hp1, hp2, if_pos hlt] at hr
      cases hlp : prevLoop e
          (if (pyStrip (s4.getD "geo").data).map Char.toLower = "helio".data
            then FLG_HELCTR else 0) fb
          (julday y1 m1 d1 0)
          (((stepHoursOf ((pyStrip (s3.getD "1 day").data).map Char.toLower)
            : ℕ) : ℚ) / 24)
          (stepHoursOf_pos ((pyStrip (s3.getD "1 day").data).map Char.toLower))
          (julday y2 m2 d2 0) 0 with
      | error msg =>
        simp only [hlp] at hr
        exact absurd hr (by simp)
      | ok pr =>
        obtain ⟨rows2, cfin⟩ := pr
        simp only [hlp, Except.ok.injEq, Prod.mk.injEq] at hr
        obtain ⟨h1, _⟩ := hr
        subst h1
        obtain ⟨_, _, hchain, hhead⟩ :=
          prevLoop_spec e _ fb _ _ _ 5000 _ 0 (by omega) rows2 cfin hlp
        exact ⟨hchain, hhead (by linarith) (by norm_num)⟩

/-- Witness for C9: a concrete request with the end date before the
start date, evaluated against the total oracle. -/
theorem ephemeris_swapped_order_witness :
    (List.Chain' (fun x y => x ≤ y)
      (([⟨2437846.5, 0, List.replicate 10 0⟩,
          ⟨2437847.5, 0, List.replicate 10 0⟩,
          ⟨2437848.5, 0, List.replicate 10 0⟩] : List ERow).map ERow.jd)
    ∧ ∃ r tl, ([⟨2437846.5, 0, List.replicate 10 0⟩,
          ⟨2437847.5, 0, List.replicate 10 0⟩,
          ⟨2437848.5, 0, List.replicate 10 0⟩] : List ERow) = r :: tl
        ∧ r.jd = julday 1962 7 1 0) :=
  (ephemeris_swapped_order okEphem (some "1962-07-03") (some "1962-07-01")
    (some "1 day") (some "geo") (.ok 0) 1962 7 3 1962 7 1 (by decide) (by decide)
    (by rw [julday_eval_0701, julday_eval_0703]; norm_num)).1
    [⟨2437846.5, 0, List.replicate 10 0⟩,
      ⟨2437847.5, 0, List.replicate 10 0⟩,
      ⟨2437848.5, 0, List.replicate 10 0⟩] ephemeris_okEphem_eval

/-- C10: the HTML preview emits at most 5000 rows, and the truncated
flag handed to the renderer is true exactly when the 5000-row limit was
reached. -/
theorem ephemeris_preview_row_limit (e : Ephem) (s1 s2 s3 s4 : Option String)
    (fbf : Except String ℚ) (rows : List ERow) (tr : Bool)
    (h : ephemeris_preview e s1 s2 s3 s4 fbf = .ok (rows, tr)) :
    rows.length ≤ 5000 ∧ (tr = true ↔ rows.length = 5000) := by
  cases fbf with
  | error m =>
    simp only [ephemeris_preview] at h
    exact absurd h (by simp)
  | ok fb =>
    cases hp1 : parse_iso_date ⟨pyStrip (s1.getD "1962-07-01").data⟩ with
    | none =>
      simp only [ephemeris_preview, hp1] at h
      exact absurd h (by simp)
    | some t1 =>
      obtain ⟨y1, m1, d1⟩ := t1
      cases hp2 : parse_iso_date ⟨pyStrip (s2.getD "1962-07-03").data⟩ with
      | none =>
        simp only [ephemeris_preview, hp1, hp2] at h
        exact absurd h (by simp)
      | some t2 =>
        obtain ⟨y2, m2, d2⟩ := t2
        simp only [ephemeris_preview, hp1, hp2] at h
        cases hlp : prevLoop e
            (if (pyStrip (s4.getD "geo").data).map Char.toLower = "helio".data
              then FLG_HELCTR else 0) fb
            (if julday y2 m2 d2 0 < julday y1 m1 d1 0
              then julday y1 m1 d1 0 else julday y2 m2 d2 0)
            (((stepHoursOf ((pyStrip (s3.getD "1 day").data).map Char.toLower)
              : ℕ) : ℚ) / 24)
            (stepHoursOf_pos ((pyStrip (s3.getD "1 day").data).map Char.toLower))
            (if julday y2 m2 d2 0 < julday y1 m1 d1 0
              then julday y2 m2 d2 0 else julday y1 m1 d1 0) 0 with
        | error msg =>
          simp only [hlp] at h
          exact absurd h (by simp)
        | ok pr =>
          obtain ⟨rows2, cfin⟩ := pr
          simp only [hlp, Except.ok.injEq, Prod.mk.injEq] at h
          obtain ⟨h1, h2⟩ := h
          subst h1
          obtain ⟨hc1, hc2, _, _⟩ :=
            prevLoop_spec e _ fb _ _ _ 5000 _ 0 (by omega) rows2 cfin hlp
          have hle := hc2 (by omega)
          refine ⟨by omega, ?_⟩
          rw [← h2]
          simp only [decide_eq_true_eq]
          omega

/-- Witness for C10 at a concrete preview request: 3 rows, not
truncated. -/
theorem ephemeris_preview_row_limit_witness :
    ([⟨2437846.5, 0, List.replicate 10 0⟩,
        ⟨2437847.5, 0, List.replicate 10 0⟩,
        ⟨2437848.5, 0, List.replicate 10 0⟩] : List ERow).length ≤ 5000
    ∧ ((false = true) ↔
        ([⟨2437846.5, 0, List.replicate 10 0⟩,
          ⟨2437847.5, 0, List.replicate 10 0⟩,
          ⟨2437848.5, 0, List.replicate 10 0⟩] : List ERow).length = 5000) :=
  ephemeris_preview_row_limit okEphem (some "1962-07-03") (some "1962-07-01")
    (some "1 day") (some "geo") (.ok 0)
    [⟨2437846.5, 0, List.replicate 10 0⟩,
      ⟨2437847.5, 0, List.replicate 10 0⟩,
      ⟨2437848.5, 0, List.replicate 10 0⟩] false preview_okEphem_eval

/-! ## IEEE-754 double model and `fmt_zodiac` (claim C8)

`fmt_zodiac` runs on CPython floats.  A finite double is a rational
`±n·2^e` with `n < 2^53`; each arithmetic operation rounds its exact
rational result back to 53 bits (round half to even).  `float % float`
and `float // float` follow CPython's `float_rem`/`float_divmod`
(`Objects/floatobject.c`): an exact `fmod` toward zero, then a
sign-correcting addition that rounds. -/

/-- C truncation toward zero (C `fmod`'s quotient, Python `int(float)`). -/
def truncq (q : ℚ) : ℤ := if q < 0 then -⌊-q⌋ else ⌊q⌋

/-- `⌊log₂ q⌋` for `q > 0`, computed from integer `Nat.log2`. -/
def flog2 (q : ℚ) : ℤ :=
  if 1 ≤ q then (Nat.log2 ⌊q⌋.toNat : ℤ)
  else if q * 2 ^ (Nat.log2 ⌊1 / q⌋.toNat : ℤ) = 1
    then -(Nat.log2 ⌊1 / q⌋.toNat : ℤ)
  else -(Nat.log2 ⌊1 / q⌋.toNat : ℤ) - 1

/-- Round a real (rational) to the nearest 53-bit binary floating-point
value, ties to even: the rounding step of every IEEE double operation
(exponent range unbounded; the inputs below stay far from overflow and
subnormals). -/
def rnd53 (q : ℚ) : ℚ :=
  if q = 0 then 0
  else
    (if q < 0 then -1 else 1)
      * ((rhe (|q| * 2 ^ (52 - flog2 |q|)) : ℤ) : ℚ) * 2 ^ (flog2 |q| - 52)

/-- C `fmod`: exact on doubles, remainder with the sign of the dividend. -/
def fmodq (x y : ℚ) : ℚ := x - (truncq (x / y) : ℚ) * y

/-- CPython `float_rem` (`x % y` on floats): `fmod`, then if the sign
differs from the divisor's, one rounding addition of `y`. -/
def pymod_f (x y : ℚ) : ℚ :=
  let m := fmodq x y
  if m ≠ 0 ∧ decide (y < 0) ≠ decide (m < 0) then rnd53 (m + y) else m

/-- CPython `float_divmod`'s floor-division result (`x // y` on
floats): `div = (vx - mod) / wx` with both operations rounding, the
sign correction, `floor`, and the final `div - floordiv > 0.5` bump. -/
def pyfloordiv (vx wx : ℚ) : ℚ :=
  let m0 := fmodq vx wx
  let d0 := rnd53 (rnd53 (vx - m0) / wx)
  let d1 := if m0 ≠ 0 ∧ decide (wx < 0) ≠ decide (m0 < 0)
    then rnd53 (d0 - 1) else d0
  let fd : ℚ := (⌊d1⌋ : ℤ)
  if d1 - fd > 1 / 2 then fd + 1 else fd

/-- The sign table of `fmt_zodiac` in `src/main.py`. -/
def signs : List String :=
  ["Aries", "Taurus", "Gemini", "Cancer", "Leo", "Virgo",
    "Libra", "Scorpio", "Sagittarius", "Capricorn", "Aquarius", "Pisces"]

/-- Python list indexing `l[i]`: negative indices count from the end;
out of range raises `IndexError` (`none`). -/
def pyindex (l : List String) (i : ℤ) : Option String :=
  if 0 ≤ i then l.get? i.toNat
  else if 0 ≤ (l.length : ℤ) + i then l.get? ((l.length : ℤ) + i).toNat
  else none

/-- `f"{n:02d}"` for the nonnegative values produced here. -/
def fmt02 (n : ℤ) : String :=
  let cs := Nat.toDigits 10 n.toNat
  ⟨if cs.length < 2 then '0' :: cs else cs⟩

/-- The body of `fmt_zodiac` after the `signs[si]` lookup: the DMS
arithmetic of `src/main.py` (`x = lon - si*30`, `d`, `m_full`, `m`,
`s = int(round(...))`, the two carry fixups) and the formatted string,
with every float operation rounding. -/
def dms (lon : ℚ) (si : ℤ) (sgn : String) : String :=
  let x := rnd53 (lon - rnd53 ((si * 30 : ℤ) : ℚ))
  let d := truncq x
  let m_full := rnd53 (rnd53 (x - (d : ℚ)) * 60)
  let m := truncq m_full
  let s := rhe (rnd53 (rnd53 (m_full - (m : ℚ)) * 60))
  let sm : ℤ × ℤ := if s = 60 then (0, m + 1) else (s, m)
  let md : ℤ × ℤ := if sm.2 = 60 then (0, d + 1) else (sm.2, d)
  fmt02 md.2 ++ "°" ++ fmt02 md.1 ++ "\x27" ++ fmt02 sm.1 ++ "\x22 " ++ sgn

/-- Model of `fmt_zodiac(deg)` from `src/main.py`, at IEEE-double
precision: `lon = deg % 360.0`, `si = int(lon // 30)`, `signs[si]`
(`none` on `IndexError`), then the DMS formatting. -/
def fmt_zodiac (deg : ℚ) : Option String :=
  let lon := pymod_f deg 360
  let si := truncq (pyfloordiv lon 30)
  match pyindex signs si with
  | none => none
  | some sgn => some (dms lon si sgn)

theorem rhe_intCast (z : ℤ) : rhe ((z : ℚ)) = z := by
  simp [rhe]

theorem truncq_nonneg (q : ℚ) (h : 0 ≤ q) : truncq q = ⌊q⌋ :=
  if_neg (not_lt.mpr h)

theorem truncq_intCast (z : ℤ) : truncq ((z : ℚ)) = z := by
  unfold truncq
  split_ifs with h
  · rw [← Int.cast_neg, Int.floor_intCast, neg_neg]
  · rw [Int.floor_intCast]

/-- `rnd53` fixes every integer below `2^53`: such values are exactly
representable doubles. -/
theorem rnd53_intCast (n : ℤ) (h0 : 0 ≤ n) (hlt : n < 9007199254740992) :
    rnd53 ((n : ℚ)) = n := by
  rcases eq_or_lt_of_le h0 with h | h
  · rw [← h]
    simp [rnd53]
  · have h1 : (1 : ℚ) ≤ (n : ℚ) := by exact_mod_cast h
    have hpos : (0 : ℚ) < (n : ℚ) := by exact_mod_cast h
    unfold rnd53
    rw [if_neg (by positivity), abs_of_pos hpos, if_neg (not_lt.mpr (le_of_lt hpos))]
    have hflog : flog2 ((n : ℚ)) = (Nat.log2 n.toNat : ℤ) := by
      unfold flog2
      rw [if_pos h1, Int.floor_intCast]
    rw [hflog]
    have hb52 : Nat.log2 n.toNat ≤ 52 := by
      have hlt2 : n.toNat < 2 ^ 53 := by omega
      have := (Nat.log2_lt (by omega : n.toNat ≠ 0)).mpr hlt2
      omega
    have hpow : (2 : ℚ) ^ ((52 : ℤ) - (Nat.log2 n.toNat : ℤ))
        = ((2 ^ (52 - Nat.log2 n.toNat) : ℕ) : ℚ) := by
      rw [show (52 : ℤ) - (Nat.log2 n.toNat : ℤ)
        = ((52 - Nat.log2 n.toNat : ℕ) : ℤ) by omega, zpow_natCast]
      push_cast
      ring
    have hm : (n : ℚ) * (2 : ℚ) ^ ((52 : ℤ) - (Nat.log2 n.toNat : ℤ))
        = (((n * (2 ^ (52 - Nat.log2 n.toNat) : ℕ) : ℤ)) : ℚ) := by
      rw [hpow]
      push_cast
      ring
    rw [hm, rhe_intCast]
    have hexp : (52 : ℤ) - (Nat.log2 n.toNat : ℤ) + ((Nat.log2 n.toNat : ℤ) - 52)
        = 0 := by ring
    calc 1 * (((n * (2 ^ (52 - Nat.log2 n.toNat) : ℕ) : ℤ)) : ℚ)
          * 2 ^ ((Nat.log2 n.toNat : ℤ) - 52)
        = (n : ℚ) * (((2 ^ (52 - Nat.log2 n.toNat) : ℕ) : ℚ)
            * 2 ^ ((Nat.log2 n.toNat : ℤ) - 52)) := by
          push_cast
          ring
      _ = (n : ℚ) * ((2 : ℚ) ^ ((52 : ℤ) - (Nat.log2 n.toNat : ℤ))
            * 2 ^ ((Nat.log2 n.toNat : ℤ) - 52)) := by rw [hpow]
      _ = (n : ℚ) * 2 ^ ((52 : ℤ) - (Nat.log2 n.toNat : ℤ)
            + ((Nat.log2 n.toNat : ℤ) - 52)) := by
          rw [← zpow_add₀ (by norm_num : (2 : ℚ) ≠ 0)]
      _ = (n : ℚ) := by rw [hexp, zpow_zero, mul_one]

/-- For `0 ≤ lon < 360`, the float floor-division `lon // 30` is exact:
every rounding in `float_divmod` is applied to a small integer. -/
theorem pyfloordiv_floor (lon : ℚ) (h0 : 0 ≤ lon) (hlt : lon < 360) :
    pyfloordiv lon 30 = ((⌊lon / 30⌋ : ℤ) : ℚ) := by
  have hdiv0 : (0 : ℚ) ≤ lon / 30 := by positivity
  have htr : truncq (lon / 30) = ⌊lon / 30⌋ := truncq_nonneg _ hdiv0
  have hk0 : 0 ≤ ⌊lon / 30⌋ := Int.floor_nonneg.mpr hdiv0
  have hk12 : ⌊lon / 30⌋ < 12 := by
    rw [Int.floor_lt]
    rw [div_lt_iff (by norm_num : (0 : ℚ) < 30)]
    push_cast
    linarith
  have hkle : ((⌊lon / 30⌋ : ℤ) : ℚ) ≤ lon / 30 := Int.floor_le _
  have hm0 : (0 : ℚ) ≤ lon - ((⌊lon / 30⌋ : ℤ) : ℚ) * 30 := by
    have h30 : ((⌊lon / 30⌋ : ℤ) : ℚ) * 30 ≤ lon :=
      (le_div_iff (by norm_num : (0 : ℚ) < 30)).mp hkle
    linarith
  simp only [pyfloordiv, fmodq, htr]
  have hsub : lon - (lon - ((⌊lon / 30⌋ : ℤ) : ℚ) * 30)
      = ((30 * ⌊lon / 30⌋ : ℤ) : ℚ) := by
    push_cast
    ring
  rw [hsub, rnd53_intCast (30 * ⌊lon / 30⌋) (by omega) (by omega)]
  have hdiv30 : ((30 * ⌊lon / 30⌋ : ℤ) : ℚ) / 30 = ((⌊lon / 30⌋ : ℤ) : ℚ) := by
    push_cast
    field_simp
  rw [hdiv30, rnd53_intCast ⌊lon / 30⌋ hk0 (by omega)]
  have hnc : ¬(lon - ((⌊lon / 30⌋ : ℤ) : ℚ) * 30 ≠ 0
      ∧ decide ((30 : ℚ) < 0) ≠ decide (lon - ((⌊lon / 30⌋ : ℤ) : ℚ) * 30 < 0)) := by
    intro hcon
    exact hcon.2 (by
      rw [decide_eq_false (by norm_num : ¬((30 : ℚ) < 0)),
        decide_eq_false (not_lt.mpr hm0)])
  rw [if_neg hnc]
  rw [Int.floor_intCast]
  rw [if_neg (show ¬(((⌊lon / 30⌋ : ℤ) : ℚ) - ((⌊lon / 30⌋ : ℤ) : ℚ) > 1 / 2)
    from by rw [sub_self]; norm_num)]

/-- The unfolded body of `fmt_zodiac`. -/
theorem fmt_zodiac_eq (deg : ℚ) :
    fmt_zodiac deg
      = match pyindex signs (truncq (pyfloordiv (pymod_f deg 360) 30)) with
        | none => none
        | some sgn => some (dms (pymod_f deg 360)
            (truncq (pyfloordiv (pymod_f deg 360) 30)) sgn) := rfl

/-- C8 corrected: whenever the float remainder `deg % 360.0` lands in
`[0, 360)`, the sign index `int((deg % 360.0) // 30)` lies in `[0, 11]`,
the list indexing is in bounds and `fmt_zodiac` returns a string.  (The
unamended claim — totality on all finite doubles — fails: see the
counterexample, where `deg % 360.0` rounds up to exactly `360.0`.) -/
theorem fmt_zodiac_inrange (deg : ℚ) (h0 : 0 ≤ pymod_f deg 360)
    (h1 : pymod_f deg 360 < 360) : (fmt_zodiac deg).isSome := by
  rw [fmt_zodiac_eq]
  rw [pyfloordiv_floor _ h0 h1, truncq_intCast]
  have hk0 : 0 ≤ ⌊pymod_f deg 360 / 30⌋ :=
    Int.floor_nonneg.mpr (div_nonneg h0 (by norm_num))
  have hk12 : ⌊pymod_f deg 360 / 30⌋ < 12 := by
    rw [Int.floor_lt]
    rw [div_lt_iff (by norm_num : (0 : ℚ) < 30)]
    push_cast
    linarith
  have hidx : pyindex signs ⌊pymod_f deg 360 / 30⌋
      = signs.get? ⌊pymod_f deg 360 / 30⌋.toNat := by
    unfold pyindex
    rw [if_pos hk0]
  rw [hidx]
  cases hg : signs.get? ⌊pymod_f deg 360 / 30⌋.toNat with
  | none =>
    have hlen := List.get?_eq_none.mp hg
    rw [show signs.length = 12 from rfl] at hlen
    omega
  | some sgn =>
    simp

theorem pymod_f_45 : pymod_f 45 360 = 45 := by
  have htr : truncq ((45 : ℚ) / 360) = 0 := by
    rw [truncq_nonneg _ (by norm_num)]
    norm_num
  simp only [pymod_f, fmodq, htr]
  rw [show (45 : ℚ) - ((0 : ℤ) : ℚ) * 360 = 45 from by norm_num]
  rw [if_neg (show ¬((45 : ℚ) ≠ 0
      ∧ decide ((360 : ℚ) < 0) ≠ decide ((45 : ℚ) < 0)) from by
    intro hcon
    exact hcon.2 (by
      rw [decide_eq_false (by norm_num : ¬((360 : ℚ) < 0)),
        decide_eq_false (by norm_num : ¬((45 : ℚ) < 0))]))]

/-- Witness for the amended C8 statement at `deg = 45`. -/
theorem fmt_zodiac_inrange_witness :
    0 ≤ pymod_f 45 360 ∧ pymod_f 45 360 < 360 ∧ (fmt_zodiac 45).isSome :=
  ⟨by rw [pymod_f_45]; norm_num, by rw [pymod_f_45]; norm_num,
    fmt_zodiac_inrange 45 (by rw [pymod_f_45]; norm_num)
      (by rw [pymod_f_45]; norm_num)⟩

theorem log2_359 : Nat.log2 359 = 8 := by
  have h1 := (Nat.le_log2 (by norm_num)).mpr (by norm_num : 2 ^ 8 ≤ 359)
  have h2 := (Nat.log2_lt (by norm_num)).mpr (by norm_num : 359 < 2 ^ 9)
  omega

theorem log2_2pow47 : Nat.log2 140737488355328 = 47 := by
  have h1 := (Nat.le_log2 (by norm_num)).mpr
    (by norm_num : 2 ^ 47 ≤ 140737488355328)
  have h2 := (Nat.log2_lt (by norm_num)).mpr
    (by norm_num : 140737488355328 < 2 ^ 48)
  omega

/-- `360 − 2⁻⁴⁷` is not a double: rounding to 53 bits lands on exactly
`360` (the tie-free nearest-even step of the CPython `%` addition). -/
theorem rnd53_360eps : rnd53 ((360 : ℚ) - 1 / 140737488355328) = 360 := by
  have hpos : (0 : ℚ) < 360 - 1 / 140737488355328 := by norm_num
  unfold rnd53
  rw [if_neg (by norm_num : ¬((360 : ℚ) - 1 / 140737488355328 = 0)),
    if_neg (not_lt.mpr (le_of_lt hpos)), abs_of_pos hpos]
  have hfl : flog2 ((360 : ℚ) - 1 / 140737488355328) = 8 := by
    unfold flog2
    rw [if_pos (by norm_num : (1 : ℚ) ≤ 360 - 1 / 140737488355328)]
    rw [show ⌊(360 : ℚ) - 1 / 140737488355328⌋ = 359 from by norm_num]
    rw [show ((359 : ℤ)).toNat = 359 from rfl, log2_359]
    norm_num
  rw [hfl]
  rw [show (52 : ℤ) - 8 = 44 from by norm_num,
    show (8 : ℤ) - 52 = -44 from by norm_num]
  have h44 : (2 : ℚ) ^ (44 : ℤ) = 17592186044416 := by
    rw [show ((44 : ℤ)) = ((44 : ℕ) : ℤ) from rfl, zpow_natCast]
    norm_num
  have h44n : (2 : ℚ) ^ (-44 : ℤ) = 1 / 17592186044416 := by
    rw [zpow_neg, h44]
    norm_num
  rw [h44, h44n]
  rw [show ((360 : ℚ) - 1 / 140737488355328) * 17592186044416
    = ((6333186975989760 : ℤ) : ℚ) - 1 / 8 from by push_cast; norm_num]
  have hrhe : rhe (((6333186975989760 : ℤ) : ℚ) - 1 / 8) = 6333186975989760 := by
    simp only [rhe]
    rw [show ⌊((6333186975989760 : ℤ) : ℚ) - 1 / 8⌋ = 6333186975989759 from by
      norm_num]
    norm_num
  rw [hrhe]
  push_cast
  norm_num

theorem pymod_f_cex :
    pymod_f (-(1 / 140737488355328)) 360 = 360 := by
  have htr : truncq ((-(1 / 140737488355328) : ℚ) / 360) = 0 := by
    unfold truncq
    rw [if_pos (by norm_num)]
    rw [show -((-(1 / 140737488355328) : ℚ) / 360)
      = 1 / 50665495807918080 from by norm_num]
    norm_num
  simp only [pymod_f, fmodq, htr]
  rw [show (-(1 / 140737488355328) : ℚ) - ((0 : ℤ) : ℚ) * 360
    = -(1 / 140737488355328) from by norm_num]
  rw [if_pos (⟨by norm_num, by
    rw [decide_eq_false (by norm_num : ¬((360 : ℚ) < 0)),
      decide_eq_true (by norm_num : (-(1 / 140737488355328) : ℚ) < 0)]
    simp⟩ : (-(1 / 140737488355328) : ℚ) ≠ 0
      ∧ decide ((360 : ℚ) < 0) ≠ decide ((-(1 / 140737488355328) : ℚ) < 0))]
  rw [show (-(1 / 140737488355328) : ℚ) + 360
    = 360 - 1 / 140737488355328 from by ring]
  exact rnd53_360eps

theorem pyfloordiv_360 : pyfloordiv (360 : ℚ) 30 = 12 := by
  have htr : truncq ((360 : ℚ) / 30) = 12 := by
    rw [truncq_nonneg _ (by norm_num)]
    norm_num
  simp only [pyfloordiv, fmodq, htr]
  rw [show (360 : ℚ) - ((12 : ℤ) : ℚ) * 30 = 0 from by norm_num]
  rw [show (360 : ℚ) - 0 = ((360 : ℤ) : ℚ) from by norm_num]
  rw [rnd53_intCast 360 (by norm_num) (by norm_num)]
  rw [show (((360 : ℤ) : ℚ)) / 30 = ((12 : ℤ) : ℚ) from by push_cast; norm_num]
  rw [rnd53_intCast 12 (by norm_num) (by norm_num)]
  rw [if_neg (show ¬((0 : ℚ) ≠ 0
      ∧ decide ((30 : ℚ) < 0) ≠ decide ((0 : ℚ) < 0)) from by
    intro hc
    exact hc.1 rfl)]
  rw [Int.floor_intCast]
  rw [if_neg (show ¬(((12 : ℤ) : ℚ) - ((12 : ℤ) : ℚ) > 1 / 2) from by
    rw [sub_self]; norm_num)]
  push_cast
  ring

/-- C8 counterexample: `deg = −2⁻⁴⁷` is a finite double (it is fixed by
53-bit rounding, second conjunct), yet `deg % 360.0` rounds up to
exactly `360.0`, the sign index `int((deg % 360.0) // 30)` becomes 12,
and `signs[12]` raises `IndexError`: `fmt_zodiac` is not total on
finite floats. -/
theorem fmt_zodiac_not_total :
    fmt_zodiac (-(1 / 140737488355328)) = none
    ∧ rnd53 (-(1 / 140737488355328)) = -(1 / 140737488355328) := by
  constructor
  · rw [fmt_zodiac_eq, pymod_f_cex, pyfloordiv_360]
    rw [show truncq ((12 : ℚ)) = 12 from by
      rw [truncq_nonneg _ (by norm_num)]; norm_num]
    rfl
  · have hneg : (-(1 / 140737488355328) : ℚ) < 0 := by norm_num
    unfold rnd53
    rw [if_neg (by norm_num : ¬((-(1 / 140737488355328) : ℚ) = 0)),
      if_pos hneg, abs_of_neg hneg]
    rw [show -(-(1 / 140737488355328) : ℚ) = 1 / 140737488355328 from by ring]
    have hfl : flog2 ((1 / 140737488355328 : ℚ)) = -47 := by
      unfold flog2
      rw [if_neg (by norm_num : ¬((1 : ℚ) ≤ 1 / 140737488355328))]
      rw [show (1 : ℚ) / (1 / 140737488355328) = 140737488355328 from by
        norm_num]
      rw [show ⌊(140737488355328 : ℚ)⌋ = 140737488355328 from by norm_num]
      rw [show ((140737488355328 : ℤ)).toNat = 140737488355328 from rfl]
      rw [log2_2pow47]
      rw [show ((2 : ℚ) ^ (((47 : ℕ)) : ℤ)) = 140737488355328 from by
        rw [zpow_natCast]; norm_num]
      rw [if_pos (by norm_num : (1 / 140737488355328 : ℚ) * 140737488355328
        = 1)]
      norm_num
    rw [hfl]
    rw [show (52 : ℤ) - -47 = 99 from by norm_num,
      show (-47 : ℤ) - 52 = -99 from by norm_num]
    have h99 : (2 : ℚ) ^ (99 : ℤ) = 633825300114114700748351602688 := by
      rw [show ((99 : ℤ)) = ((99 : ℕ) : ℤ) from rfl, zpow_natCast]
      norm_num
    have h99n : (2 : ℚ) ^ (-99 : ℤ)
        = 1 / 633825300114114700748351602688 := by
      rw [zpow_neg, h99]
      norm_num
    rw [h99, h99n]
    rw [show (1 / 140737488355328 : ℚ) * 633825300114114700748351602688
      = ((4503599627370496 : ℤ) : ℚ) from by push_cast; norm_num]
    rw [rhe_intCast]
    push_cast
    norm_num

/-! ## `compute_positions` at IEEE-double precision (claim C2)

The exact-rational `pymod` above narrows the float program's outputs:
CPython's `float %` can return exactly `360.0` (`pymod_f_cex`).  Claim
C2 quantifies over every oracle value, so its range property must be
settled against the rounded model: `calcTrop_f`/`compute_positions_f`
below are `compute_positions` with every float operation (`% 360.0`,
the ayanamsa addition, the `lon_t - ayan` subtraction) rounding to 53
bits. -/

theorem rhe_nonneg (q : ℚ) (h : 0 ≤ q) : 0 ≤ rhe q := by
  have h0 : 0 ≤ ⌊q⌋ := Int.floor_nonneg.mpr h
  simp only [rhe]
  split_ifs <;> omega

theorem rhe_le_of_lt_int (q : ℚ) (N : ℤ) (h : q < N) : rhe q ≤ N := by
  have hfl : ⌊q⌋ < N := Int.floor_lt.mpr h
  simp only [rhe]
  split_ifs <;> omega

theorem rnd53_nonneg (q : ℚ) (h : 0 ≤ q) : 0 ≤ rnd53 q := by
  unfold rnd53
  split_ifs with h0 hneg
  · exact le_refl 0
  · exact absurd hneg (not_lt.mpr h)
  · have h1 : (0 : ℚ) ≤ |q| * 2 ^ (52 - flog2 |q|) := by positivity
    have h2 := rhe_nonneg _ h1
    have h3 : (0 : ℚ) < (2 : ℚ) ^ (flog2 |q| - 52) := by positivity
    have h4 : (0 : ℚ) ≤ ((rhe (|q| * 2 ^ (52 - flog2 |q|)) : ℤ) : ℚ) := by
      exact_mod_cast h2
    rw [one_mul]
    exact mul_nonneg h4 (le_of_lt h3)

theorem flog2_le8 (q : ℚ) (h360 : q < 360) : flog2 q ≤ 8 := by
  unfold flog2
  split_ifs with ha hb
  · have hfl : ⌊q⌋ < 360 := Int.floor_lt.mpr (by exact_mod_cast h360)
    have hne : ⌊q⌋.toNat ≠ 0 := by
      have h1 : (1 : ℤ) ≤ ⌊q⌋ := Int.le_floor.mpr (by exact_mod_cast ha)
      omega
    have h9 := (Nat.log2_lt hne).mpr (show ⌊q⌋.toNat < 2 ^ 9 by omega)
    omega
  · omega
  · omega

theorem rnd53_le_360 (q : ℚ) (h0 : 0 ≤ q) (h1 : q < 360) : rnd53 q ≤ 360 := by
  unfold rnd53
  split_ifs with hq0 hneg
  · norm_num
  · exact absurd hneg (not_lt.mpr h0)
  · have hqpos : 0 < q := lt_of_le_of_ne h0 (Ne.symm hq0)
    rw [abs_of_pos hqpos]
    set e := flog2 q with he
    have he8 : e ≤ 8 := flog2_le8 q h1
    have hk : (((52 - e).toNat : ℤ)) = 52 - e := Int.toNat_of_nonneg (by omega)
    have hcast : ((360 * 2 ^ (52 - e).toNat : ℤ) : ℚ)
        = 360 * (2 : ℚ) ^ (52 - e) := by
      push_cast
      rw [← zpow_natCast (2 : ℚ) (52 - e).toNat, hk]
    have hp : (0 : ℚ) < (2 : ℚ) ^ (52 - e) := by positivity
    have hmlt : q * (2 : ℚ) ^ (52 - e)
        < ((360 * 2 ^ (52 - e).toNat : ℤ) : ℚ) := by
      rw [hcast]
      exact mul_lt_mul_of_pos_right h1 hp
    have hrle := rhe_le_of_lt_int _ _ hmlt
    have hp2 : (0 : ℚ) < (2 : ℚ) ^ (e - 52) := by positivity
    have hc2 : ((rhe (q * 2 ^ (52 - e)) : ℤ) : ℚ)
        ≤ ((360 * 2 ^ (52 - e).toNat : ℤ) : ℚ) := by exact_mod_cast hrle
    have hstep := mul_le_mul_of_nonneg_right hc2 (le_of_lt hp2)
    rw [one_mul]
    refine le_trans hstep (le_of_eq ?_)
    rw [hcast, mul_assoc, ← zpow_add₀ (by norm_num : (2 : ℚ) ≠ 0),
      show 52 - e + (e - 52) = 0 from by ring, zpow_zero, mul_one]

theorem fmodq_360_nonneg_lt (x : ℚ) (h : 0 ≤ x / 360) :
    0 ≤ fmodq x 360 ∧ fmodq x 360 < 360 := by
  unfold fmodq
  rw [truncq_nonneg _ h]
  have h1 := pymod_nonneg x (show (0 : ℚ) < 360 by norm_num)
  have h2 := pymod_lt x (show (0 : ℚ) < 360 by norm_num)
  unfold pymod at h1 h2
  constructor <;> linarith

theorem fmodq_360_neg (x : ℚ) (h : x / 360 < 0) :
    -360 < fmodq x 360 ∧ fmodq x 360 ≤ 0 := by
  unfold fmodq truncq
  rw [if_pos h]
  have h1 : (⌊-(x / 360)⌋ : ℚ) ≤ -(x / 360) := Int.floor_le _
  have h2 : -(x / 360) < ⌊-(x / 360)⌋ + 1 := Int.lt_floor_add_one _
  have hx : x = 360 * (x / 360) := by field_simp
  push_cast
  constructor <;> linarith

/-- The float remainder `x % 360.0` lies in the closed interval
`[0, 360]`: nonnegative, but (unlike the exact remainder) it can reach
`360` when the sign-correcting addition rounds up. -/
theorem pymod_f_360_mem (x : ℚ) : 0 ≤ pymod_f x 360 ∧ pymod_f x 360 ≤ 360 := by
  simp only [pymod_f]
  by_cases hm0 : fmodq x 360 = 0
  · rw [if_neg (fun hc => hc.1 hm0), hm0]
    norm_num
  · by_cases hmlt : fmodq x 360 < 0
    · have hx : x / 360 < 0 := by
        by_contra hge
        push_neg at hge
        exact absurd hmlt (not_lt.mpr (fmodq_360_nonneg_lt x hge).1)
      obtain ⟨hgt, _⟩ := fmodq_360_neg x hx
      rw [if_pos (⟨hm0, by
        rw [decide_eq_false (by norm_num : ¬((360 : ℚ) < 0)),
          decide_eq_true hmlt]
        simp⟩ : fmodq x 360 ≠ 0
          ∧ decide ((360 : ℚ) < 0) ≠ decide (fmodq x 360 < 0))]
      exact ⟨rnd53_nonneg _ (by linarith),
        rnd53_le_360 _ (by linarith) (by linarith)⟩
    · rw [if_neg (fun hc => hc.2 (by
        rw [decide_eq_false (by norm_num : ¬((360 : ℚ) < 0)),
          decide_eq_false hmlt]))]
      have hx : 0 ≤ x / 360 := by
        by_contra hlt2
        push_neg at hlt2
        exact hm0 (le_antisymm (fmodq_360_neg x hlt2).2 (not_lt.mp hmlt))
      obtain ⟨hge, hlt360⟩ := fmodq_360_nonneg_lt x hx
      exact ⟨hge, le_of_lt hlt360⟩

/-- The per-planet loop of `compute_positions` at double precision:
`lon = float(vals[0]) % 360.0` with the float `%`. -/
def calcTrop_f (e : Ephem) (jd : ℚ) (flags : ℕ) :
    List (String × ℕ) → Except String (List (String × ℚ))
  | [] => .ok []
  | (n, code) :: rest =>
    match e.calc_ut jd code flags with
    | .error msg => .error msg
    | .ok v =>
      match calcTrop_f e jd flags rest with
      | .error msg => .error msg
      | .ok tl => .ok ((n, pymod_f v 360) :: tl)

/-- `compute_positions` from `src/main.py` at IEEE-double precision:
identical to `compute_positions` except that the `% 360.0` operations
are the float remainder, and the ayanamsa addition and the
`lon_t - ayan` subtraction each round to 53 bits. -/
def compute_positions_f (e : Ephem) (jd_ut fb_extra_offset : ℚ)
    (center : String) : Except String (List PRow × ℚ) :=
  let flags : ℕ := if center = "helio" then FLG_HELCTR else 0
  match calcTrop_f e jd_ut flags PLANETS with
  | .error msg => .error msg
  | .ok trop =>
    let ayan := rnd53 (e.ayanamsa_ut SIDM_FAGAN_BRADLEY jd_ut + fb_extra_offset)
    .ok (trop.map (fun p => ⟨p.1, p.2, pymod_f (rnd53 (p.2 - ayan)) 360⟩), ayan)

theorem calcTrop_f_mem (e : Ephem) (jd : ℚ) (flags : ℕ) :
    ∀ (ps : List (String × ℕ)) (res : List (String × ℚ)),
      calcTrop_f e jd flags ps = .ok res →
      ∀ p ∈ res, ∃ code v, (p.1, code) ∈ ps
        ∧ e.calc_ut jd code flags = .ok v ∧ p.2 = pymod_f v 360 := by
  intro ps
  induction ps with
  | nil =>
    intro res h p hp
    simp only [calcTrop_f] at h
    obtain rfl : ([] : List (String × ℚ)) = res := (Except.ok.injEq _ _).mp h
    simp at hp
  | cons hd tl ih =>
    intro res h p hp
    obtain ⟨n, code⟩ := hd
    simp only [calcTrop_f] at h
    cases hc : e.calc_ut jd code flags with
    | error msg => rw [hc] at h; exact absurd h (by simp)
    | ok v =>
      rw [hc] at h
      cases ht : calcTrop_f e jd flags tl with
      | error msg => rw [ht] at h; exact absurd h (by simp)
      | ok tlres =>
        rw [ht] at h
        obtain rfl : (n, pymod_f v 360) :: tlres = res := (Except.ok.injEq _ _).mp h
        rcases List.mem_cons.mp hp with hp2 | hp2
        · subst hp2
          exact ⟨code, v, by simp, hc, by simp⟩
        · obtain ⟨code2, v2, hmem, hcv, hval⟩ := ih tlres ht p hp2
          exact ⟨code2, v2, by simp [hmem], hcv, hval⟩

/-- C2 corrected: at IEEE-double precision every tropical and sidereal
longitude produced by `compute_positions` lies in the closed interval
`[0, 360]` — but not in the claimed half-open `[0, 360)`: the upper
endpoint is attained (see the counterexample), because the float
`% 360.0` of a tiny negative value rounds up to exactly `360.0`. -/
theorem compute_positions_float_range (e : Ephem) (jd fb : ℚ) (center : String)
    (rows : List PRow) (ayan : ℚ)
    (h : compute_positions_f e jd fb center = .ok (rows, ayan)) :
    ∀ r ∈ rows, 0 ≤ r.trop ∧ r.trop ≤ 360 ∧ 0 ≤ r.sid ∧ r.sid ≤ 360 := by
  simp only [compute_positions_f] at h
  cases hc : calcTrop_f e jd (if center = "helio" then FLG_HELCTR else 0)
      PLANETS with
  | error msg => rw [hc] at h; exact absurd h (by simp)
  | ok trop =>
    rw [hc] at h
    simp only [Except.ok.injEq, Prod.mk.injEq] at h
    obtain ⟨hrows, hayan⟩ := h
    intro r hr
    rw [← hrows] at hr
    obtain ⟨p, hpmem, rfl⟩ := List.mem_map.mp hr
    obtain ⟨code, v, _, _, hval⟩ := calcTrop_f_mem e jd
      (if center = "helio" then FLG_HELCTR else 0) PLANETS trop hc p hpmem
    obtain ⟨ht0, ht1⟩ := pymod_f_360_mem v
    obtain ⟨hs0, hs1⟩ := pymod_f_360_mem
      (rnd53 (p.2 - rnd53 (e.ayanamsa_ut SIDM_FAGAN_BRADLEY jd + fb)))
    refine ⟨?_, ?_, hs0, hs1⟩
    · show (0 : ℚ) ≤ p.2
      rw [hval]
      exact ht0
    · show p.2 ≤ 360
      rw [hval]
      exact ht1

/-- The oracle of the C2 counterexample: every body at longitude
`−2⁻⁴⁷` (a finite double), ayanamsa 0. -/
def cexEphem : Ephem where
  calc_ut := fun _ _ _ => .ok (-(1 / 140737488355328))
  ayanamsa_ut := fun _ _ => 0
  houses_ex := fun _ _ _ _ => .ok ([], 0, 0)

theorem pymod_f_360_360 : pymod_f (360 : ℚ) 360 = 0 := by
  have htr : truncq ((360 : ℚ) / 360) = 1 := by
    rw [truncq_nonneg _ (by norm_num)]
    norm_num
  simp only [pymod_f, fmodq, htr]
  rw [show (360 : ℚ) - ((1 : ℤ) : ℚ) * 360 = 0 from by norm_num]
  rw [if_neg (fun hc => hc.1 rfl)]

theorem calcTrop_f_cex (jd : ℚ) (flags : ℕ) :
    calcTrop_f cexEphem jd flags PLANETS
      = .ok (PLANETS.map (fun p => (p.1, (360 : ℚ)))) := by
  simp [calcTrop_f, PLANETS, cexEphem]
  rw [show (-140737488355328⁻¹ : ℚ) = -(1 / 140737488355328) from by norm_num]
  exact pymod_f_cex

theorem compute_positions_f_cex_eval :
    compute_positions_f cexEphem 0 0 "geo"
      = .ok (PLANETS.map (fun p => ⟨p.1, 360, 0⟩), 0) := by
  have hay : rnd53 (cexEphem.ayanamsa_ut SIDM_FAGAN_BRADLEY 0 + 0) = 0 := by
    rw [show cexEphem.ayanamsa_ut SIDM_FAGAN_BRADLEY 0 + (0 : ℚ) = 0 from by
      simp [cexEphem]]
    simp [rnd53]
  have hsid : pymod_f (rnd53 ((360 : ℚ) - 0)) 360 = 0 := by
    rw [show ((360 : ℚ) - 0) = ((360 : ℤ) : ℚ) from by norm_num]
    rw [rnd53_intCast 360 (by norm_num) (by norm_num)]
    rw [show (((360 : ℤ)) : ℚ) = (360 : ℚ) from by norm_num]
    exact pymod_f_360_360
  have hmap : (PLANETS.map (fun p => (p.1, (360 : ℚ)))).map
      (fun p => (⟨p.1, p.2, pymod_f (rnd53 (p.2 - 0)) 360⟩ : PRow))
      = PLANETS.map (fun p => ⟨p.1, 360, 0⟩) := by
    simp only [PLANETS, List.map_cons, List.map_nil]
    rw [hsid]
  simp only [compute_positions_f]
  rw [calcTrop_f_cex, hay]
  show Except.ok ((PLANETS.map (fun p => (p.1, (360 : ℚ)))).map
      (fun p => (⟨p.1, p.2, pymod_f (rnd53 (p.2 - 0)) 360⟩ : PRow)), (0 : ℚ)) = _
  rw [hmap]

/-- C2 counterexample: with the oracle answering `−2⁻⁴⁷`, the float
`% 360.0` at `src/main.py` line 79 returns exactly `360.0`, so the
tropical longitude violates the claimed `< 360`. -/
theorem compute_positions_float_not_range :
    ¬ (∀ (e : Ephem) (jd fb : ℚ) (center : String) (rows : List PRow)
        (ayan : ℚ),
        compute_positions_f e jd fb center = .ok (rows, ayan) →
        ∀ r ∈ rows, 0 ≤ r.trop ∧ r.trop < 360 ∧ 0 ≤ r.sid ∧ r.sid < 360) := by
  intro hcl
  have h := hcl cexEphem 0 0 "geo" _ _ compute_positions_f_cex_eval
    ⟨"Sun", 360, 0⟩ (by simp [PLANETS])
  exact absurd h.2.1 (by norm_num)

/-- Witness for the corrected C2 statement: the Sun row of the
counterexample run attains the closed interval's upper endpoint. -/
theorem compute_positions_float_range_witness :
    (0 : ℚ) ≤ 360 ∧ (360 : ℚ) ≤ 360 ∧ (0 : ℚ) ≤ 0 ∧ (0 : ℚ) ≤ 360 :=
  compute_positions_float_range cexEphem 0 0 "geo" _ _
    compute_positions_f_cex_eval ⟨"Sun", 360, 0⟩ (by simp [PLANETS])
